import Mathlib

set_option autoImplicit false

/-!
Verification of the weavr event-model engine: a shallow embedding of the two
pipelines in `src/public/examples/fix_weavr_model.py` (`fix_model`) and
`src/public/examples/audit_patterns.py` (`audit_patterns`), together with
theorems settling the stated properties of normalization, edge synthesis,
pattern validation and layout.

Modelling conventions:
* JSON dictionaries become structures; a field read with Python's `d.get(k)`
  becomes `Option`, a field read with `d[k]` (whose absence raises `KeyError`)
  is either a required field (when no property exercises its absence: `Dep.id`,
  `Slice.id`) or an `Option` field whose absence maps to an `Except.error`
  (`Element.id`, `Element.title`, `Element.type`).
* The Python scripts mutate one shared id→element dictionary in place; here the
  state is the slice list itself, and `element_map[i]` / in-place mutation of
  the element it holds become `lookupEl` / `updLast`, which read and rewrite the
  LAST element carrying id `i` (matching dict semantics: a later insertion with
  the same key overwrites the value, so the dict always holds the last
  occurrence).
* File I/O is represented by `Option Doc` (the input file's presence) and the
  `RunResult` outcome type: `ok` (run completed, output produced), `aborted`
  (diagnostic printed and early `return`), `crashed` (uncaught Python
  exception).
* The transient `_slice_id` / `_slice_index` markers of `fix_model` are written
  in phase 1 and unconditionally deleted during layout, and are never read in
  between (layout uses `enumerate` instead); they are therefore omitted from
  the element structure.
* The dead assignment `existing_outbound = ...` (fix_weavr_model.py line 74) is
  never used by the script; its only possible effect is a `KeyError` for an
  OUTBOUND dependency missing `id`, which is unrepresentable here because
  `Dep.id` is total; it is omitted.
-/

namespace Weavr

/-- A dependency entry `{id, type, title, elementType}` of an element.
`id` is read with `dep['id']` in the source and is modelled as required;
the other three are read with `.get` and are optional. The `type` field holds
the direction tag (INBOUND / OUTBOUND). -/
structure Dep where
  id : String
  type : Option String
  title : Option String
  elementType : Option String
deriving Repr, DecidableEq

/-- An element `{id, title, type, context, dependencies}`. All fields that the
scripts may find absent are `Option`. -/
structure Element where
  id : Option String
  title : Option String
  type : Option String
  context : Option String
  dependencies : Option (List Dep)
deriving Repr, DecidableEq, Inhabited

/-- A slice: its id (read with `s['id']`, required) and the six element
buckets; an absent bucket is read with `.get(k, [])` and is modelled as the
empty list. -/
structure Slice where
  id : String
  commands : List Element
  events : List Element
  readmodels : List Element
  screens : List Element
  processors : List Element
  integrationEvents : List Element
deriving Repr, DecidableEq

/-- The `eventModel` object of the input document. -/
structure EventModel where
  slices : Option (List Slice)
deriving Repr, DecidableEq

/-- The input document. -/
structure Doc where
  eventModel : Option EventModel
deriving Repr, DecidableEq

/-- Outcome of running a pipeline script: it completed and produced its result
(`ok`), it printed a diagnostic and returned early (`aborted`), or an uncaught
Python exception terminated it (`crashed`). -/
inductive RunResult (α : Type) where
  | ok (out : α)
  | aborted (msg : String)
  | crashed (msg : String)
deriving Repr, DecidableEq

/-- One entry of the generated `layout` map. -/
structure LayoutEntry where
  x : Nat
  y : Nat
  height : Nat
  type : String
  title : String
deriving Repr, DecidableEq

/-- The data `fix_model` writes out: the mutated slices plus the layout map
(an insertion-ordered dictionary, modelled as an association list whose lookup
returns the last write for a key). -/
structure FixOutput where
  slices : List Slice
  layout : List (String × LayoutEntry)
deriving Repr, DecidableEq

/-- Reads `slices = data.get('eventModel', {}).get('slices', [])`. -/
def getSlices (d : Doc) : List Slice :=
  match d.eventModel with
  | none => []
  | some em => em.slices.getD []

/-- All elements of a slice, in the bucket order used by both scripts:
commands, events, readmodels, screens, processors, integrationEvents. -/
def sliceElements (s : Slice) : List Element :=
  s.commands ++ s.events ++ s.readmodels ++ s.screens ++ s.processors ++
    s.integrationEvents

/-- All elements of the graph, in visitation order. -/
def allElements (ss : List Slice) : List Element :=
  (ss.map sliceElements).flatten

/-- The `map_type` helper (fix_weavr_model.py lines 30-41): rewrite the internal type
vocabulary to the schema vocabulary. -/
def map_type (el : Element) : Element :=
  if el.type = some "DOMAIN_EVENT" then
    { el with type := some "EVENT" }
  else if el.type = some "INTEGRATION_EVENT" then
    { el with type := some "EVENT", context := some "EXTERNAL" }
  else if el.type = some "READ_MODEL" then
    { el with type := some "READMODEL" }
  else
    el

/-- Phase 1 per-element work (fix_weavr_model.py lines 55-62): apply
`map_type`, then read `el['id']` (a `KeyError` if absent), then ensure the
`dependencies` array exists. -/
def prepElement (el : Element) : Except String Element :=
  match (map_type el).id with
  | none => .error "KeyError: id"
  | some _ =>
    .ok { map_type el with
          dependencies := some ((map_type el).dependencies.getD []) }

/-- Phase 1 over a bucket. -/
def prepList : List Element → Except String (List Element)
  | [] => .ok []
  | el :: rest => do
    let e ← prepElement el
    let r ← prepList rest
    .ok (e :: r)

/-- Phase 1 over one slice (buckets in visitation order). -/
def prepSlice (s : Slice) : Except String Slice := do
  let c ← prepList s.commands
  let e ← prepList s.events
  let r ← prepList s.readmodels
  let sc ← prepList s.screens
  let p ← prepList s.processors
  let ie ← prepList s.integrationEvents
  .ok { id := s.id, commands := c, events := e, readmodels := r, screens := sc,
        processors := p, integrationEvents := ie }

/-- Phase 1 over the whole graph. -/
def prepSlices : List Slice → Except String (List Slice)
  | [] => .ok []
  | s :: rest => do
    let s' ← prepSlice s
    let rest' ← prepSlices rest
    .ok (s' :: rest')

/-- The INBOUND dependencies of an element
(`[d for d in deps if d.get('type') == 'INBOUND']`). -/
def inboundDeps (el : Element) : List Dep :=
  (el.dependencies.getD []).filter (fun d => d.type == some "INBOUND")

/-- The ids targeted by an element's OUTBOUND dependencies
(`[d['id'] for d in el.get('dependencies', []) if d.get('type') == 'OUTBOUND']`). -/
def outboundIds (el : Element) : List String :=
  (el.dependencies.getD []).filterMap
    (fun d => if d.type == some "OUTBOUND" then some d.id else none)

/-- Python's `i in element_map`: some element of the graph carries id `i`. -/
def memberId (els : List Element) (i : String) : Bool :=
  els.any (fun el => el.id == some i)

/-- Python's `element_map[i]`: the LAST element carrying id `i` (a later dict insertion
with the same key overwrites the earlier value). -/
def lookupEl (i : String) : List Element → Option Element
  | [] => none
  | el :: rest =>
    if memberId rest i then lookupEl i rest
    else if el.id == some i then some el
    else none

/-- Rewrite the LAST element of a flat element list carrying id `i` with `f`
(in-place mutation of the dict value for key `i`). -/
def updLastEl (i : String) (f : Element → Element) : List Element → List Element
  | [] => []
  | el :: rest =>
    if memberId rest i then el :: updLastEl i f rest
    else if el.id == some i then f el :: rest
    else el :: rest

/-- Rewrite the last element with id `i` inside one slice (the six buckets are
scanned back to front so the bucket holding the last occurrence is updated). -/
def updLastSlice (i : String) (f : Element → Element) (s : Slice) : Slice :=
  if memberId s.integrationEvents i then
    { s with integrationEvents := updLastEl i f s.integrationEvents }
  else if memberId s.processors i then
    { s with processors := updLastEl i f s.processors }
  else if memberId s.screens i then
    { s with screens := updLastEl i f s.screens }
  else if memberId s.readmodels i then
    { s with readmodels := updLastEl i f s.readmodels }
  else if memberId s.events i then
    { s with events := updLastEl i f s.events }
  else
    { s with commands := updLastEl i f s.commands }

/-- Rewrite the last element with id `i` in the graph with `f`. -/
def updLast (i : String) (f : Element → Element) : List Slice → List Slice
  | [] => []
  | s :: rest =>
    if memberId (allElements rest) i then s :: updLast i f rest
    else updLastSlice i f s :: rest

/-- Append a dependency to an element's `dependencies` array
(`source_el['dependencies'].append(...)`; phase 1 guarantees the array
exists). -/
def appendDep (d : Dep) (el : Element) : Element :=
  { el with dependencies := some (el.dependencies.getD [] ++ [d]) }

/-- One step of edge synthesis (fix_weavr_model.py lines 78-90): element
`elId` holds the INBOUND dependency `dep`; if `dep.id` is a known element id
and that source element has no OUTBOUND dependency targeting `elId` yet,
append one, copying the INBOUND title (default the empty string) and using
`el['type']` — the post-normalization type of `elId`'s element, whose absence
raises `KeyError`. -/
def synthStep (ss : List Slice) (elId : String) (dep : Dep) :
    Except String (List Slice) :=
  if memberId (allElements ss) dep.id then
    match lookupEl dep.id (allElements ss) with
    | none => .ok ss
    | some src =>
      if (outboundIds src).contains elId then .ok ss
      else
        match (lookupEl elId (allElements ss)).bind (fun el => el.type) with
        | none => .error "KeyError: type"
        | some ty =>
          .ok (updLast dep.id
            (appendDep { id := elId, type := some "OUTBOUND",
                         title := some (dep.title.getD ""),
                         elementType := some ty }) ss)
  else
    .ok ss

/-- Run a list of (element id, INBOUND dependency) synthesis tasks in order. -/
def runTasks (ss : List Slice) : List (String × Dep) →
    Except String (List Slice)
  | [] => .ok ss
  | (k, d) :: rest => do
    let ss' ← synthStep ss k d
    runTasks ss' rest

/-- The synthesis tasks contributed by map key `k`: its element's INBOUND
dependencies, read from the current state at the moment `k` is visited. -/
def synthTasksFor (ss : List Slice) (k : String) : List (String × Dep) :=
  match lookupEl k (allElements ss) with
  | none => []
  | some el => (inboundDeps el).map (fun d => (k, d))

/-- Keys of `element_map` in first-insertion order: element ids in visitation
order with later duplicates dropped. -/
def dedupFirstAux (seen : List String) : List String → List String
  | [] => []
  | x :: xs =>
    if seen.contains x then dedupFirstAux seen xs
    else x :: dedupFirstAux (x :: seen) xs

/-- The keys of the element map, in iteration order. -/
def mapKeys (ss : List Slice) : List String :=
  dedupFirstAux [] ((allElements ss).filterMap (fun el => el.id))

/-- The outer synthesis loop over the map keys; each key's tasks are read from
the live state when the key is reached. -/
def synthOuter (ss : List Slice) : List String → Except String (List Slice)
  | [] => .ok ss
  | k :: keys => do
    let ss' ← runTasks ss (synthTasksFor ss k)
    synthOuter ss' keys

/-- Phase 2 of `fix_model`: edge synthesis over all map entries. -/
def synthesis (ss : List Slice) : Except String (List Slice) :=
  synthOuter ss (mapKeys ss)

/-- Keep only OUTBOUND dependencies
(`el['dependencies'] = [d for d in el['dependencies'] if d.get('type') == 'OUTBOUND']`). -/
def purgeDeps (el : Element) : Element :=
  { el with
    dependencies := some ((el.dependencies.getD []).filter
      (fun d => d.type == some "OUTBOUND")) }

/-- Phase 3 of `fix_model`: purge INBOUND dependencies from every map entry. -/
def purge (ss : List Slice) : List Slice :=
  (mapKeys ss).foldl (fun acc k => updLast k purgeDeps acc) ss

/-- Layout constants (fix_weavr_model.py lines 102-105). -/
def SLICE_WIDTH : Nat := 1200

/-- Inter-slice gap. -/
def SLICE_GAP : Nat := 100

/-- Row height. -/
def ROW_HEIGHT : Nat := 180

/-- Base vertical margin. -/
def BASE_Y : Nat := 100

/-- Reads `TYPE_X.get(etype, 0)`: the per-type horizontal column offset. -/
def TYPE_X (t : String) : Nat :=
  if t = "SCREEN" then 0
  else if t = "COMMAND" then 250
  else if t = "AUTOMATION" then 500
  else if t = "EVENT" then 500
  else if t = "READMODEL" then 750
  else 0

/-- Reads `etype = el.get('type', 'COMMAND')`: the type string layout uses. -/
def layoutType (el : Element) : String :=
  el.type.getD "COMMAND"

/-- Layout over the elements of one slice, threading the per-type row
counters (`counters.get(etype, 0)`, then incremented). Reading `el['title']`
or `el['id']` fails when absent; the title is read first (the dict literal on
the right-hand side is evaluated before the subscript on the left). -/
def layoutElems (baseX : Nat) (counters : String → Nat) :
    List Element → Except String (List (String × LayoutEntry))
  | [] => .ok []
  | el :: rest =>
    let t := layoutType el
    match el.title with
    | none => .error "KeyError: title"
    | some ttl =>
      match el.id with
      | none => .error "KeyError: id"
      | some i => do
        let r ← layoutElems baseX
          (fun u => if u = t then counters t + 1 else counters u) rest
        .ok ((i, { x := baseX + TYPE_X t, y := BASE_Y + counters t * ROW_HEIGHT,
                   height := 120, type := t, title := ttl }) :: r)

/-- Layout over the slices starting at slice index `idx`
(`base_x = s_idx * (SLICE_WIDTH + SLICE_GAP)`; counters reset per slice). -/
def layoutFrom (idx : Nat) : List Slice →
    Except String (List (String × LayoutEntry))
  | [] => .ok []
  | s :: rest => do
    let l ← layoutElems (idx * (SLICE_WIDTH + SLICE_GAP)) (fun _ => 0)
      (sliceElements s)
    let r ← layoutFrom (idx + 1) rest
    .ok (l ++ r)

/-- Phase 4 of `fix_model`: the generated layout map. -/
def layoutSlices (ss : List Slice) : Except String (List (String × LayoutEntry)) :=
  layoutFrom 0 ss

/-- Lookup in an insertion-ordered dictionary modelled as an association list:
the value of a key is its last write. -/
def lookupLast (l : List (String × LayoutEntry)) (k : String) :
    Option LayoutEntry :=
  l.foldl (fun acc e => if e.1 = k then some e.2 else acc) none

/-- The input path message fragment (the script interpolates an absolute path;
only the base name is kept here). -/
def INPUT_FILE : String := "weavr-self-model.json"

/-- The `fix_model` pipeline (fix_weavr_model.py lines 12-164): read the input (absent →
diagnostic and return), check for slices (none → diagnostic and return), then
normalize, synthesize, purge and lay out. Any `KeyError` escapes as a crash. -/
def fix_model (input : Option Doc) : RunResult FixOutput :=
  match input with
  | none => .aborted ("Error: " ++ INPUT_FILE ++ " not found.")
  | some data =>
    let slices := getSlices data
    if slices.isEmpty then .aborted "No slices found in eventModel."
    else
      match prepSlices slices with
      | .error e => .crashed e
      | .ok ss1 =>
        match synthesis ss1 with
        | .error e => .crashed e
        | .ok ss2 =>
          let ss3 := purge ss2
          match layoutSlices ss3 with
          | .error e => .crashed e
          | .ok l => .ok { slices := ss3, layout := l }

/-- A single apostrophe, as used around titles in audit messages. -/
def apos : String := String.singleton (Char.ofNat 39)

/-- Python string interpolation of a possibly absent id: `None` prints as the
string `None`. -/
def pyOptStr : Option String → String
  | none => "None"
  | some s => s

/-- Format one audit violation message
`[<slice id>] <TYPE> '<title>' (<id>) missing <suffix>`; reading `el['title']`
raises `KeyError` when the title is absent. -/
def fmtViolation (sliceId tyName : String) (el : Element) (suffix : String) :
    Except String String :=
  match el.title with
  | none => .error "KeyError: title"
  | some t =>
    .ok ("[" ++ sliceId ++ "] " ++ tyName ++ " " ++ apos ++ t ++ apos ++ " (" ++
         pyOptStr el.id ++ ") missing " ++ suffix)

/-- Audit one element (audit_patterns.py lines 30-79): four independent rule
checks keyed on the raw `el.get('type')`; each emits at most one violation when
no INBOUND dependency's `elementType` lies in the required list. -/
def auditElement (sliceId : String) (el : Element) :
    Except String (List String) := do
  let preds := inboundDeps el
  let v1 ←
    if el.type = some "COMMAND" &&
        !(preds.any (fun p =>
          ["SCREEN", "AUTOMATION"].any (fun r => p.elementType == some r))) then
      (fmtViolation sliceId "COMMAND" el "SCREEN or AUTOMATION parent.").map
        (fun m => [m])
    else .ok []
  let v2 ←
    if el.type = some "DOMAIN_EVENT" &&
        !(preds.any (fun p =>
          ["COMMAND"].any (fun r => p.elementType == some r))) then
      (fmtViolation sliceId "DOMAIN_EVENT" el "COMMAND parent.").map
        (fun m => [m])
    else .ok []
  let v3 ←
    if el.type = some "READ_MODEL" &&
        !(preds.any (fun p =>
          ["DOMAIN_EVENT", "INTEGRATION_EVENT"].any
            (fun r => p.elementType == some r))) then
      (fmtViolation sliceId "READ_MODEL" el "EVENT parent.").map (fun m => [m])
    else .ok []
  let v4 ←
    if el.type = some "AUTOMATION" &&
        !(preds.any (fun p =>
          ["DOMAIN_EVENT", "INTEGRATION_EVENT", "READ_MODEL"].any
            (fun r => p.elementType == some r))) then
      (fmtViolation sliceId "AUTOMATION" el "EVENT or READ_MODEL parent.").map
        (fun m => [m])
    else .ok []
  .ok (v1 ++ v2 ++ v3 ++ v4)

/-- Audit the elements of one slice in bucket order. -/
def auditElems (sliceId : String) : List Element → Except String (List String)
  | [] => .ok []
  | el :: rest => do
    let v ← auditElement sliceId el
    let r ← auditElems sliceId rest
    .ok (v ++ r)

/-- Audit all slices in order. -/
def auditSlices : List Slice → Except String (List String)
  | [] => .ok []
  | s :: rest => do
    let v ← auditElems s.id (sliceElements s)
    let r ← auditSlices rest
    .ok (v ++ r)

/-- The `audit_patterns` pipeline (audit_patterns.py lines 9-86): the input file is opened
without any exception handler, so an absent input crashes the run with an
uncaught `FileNotFoundError`; otherwise the ordered violation list is produced
(and printed). -/
def audit_patterns (input : Option Doc) : RunResult (List String) :=
  match input with
  | none => .crashed "FileNotFoundError"
  | some data =>
    match auditSlices (getSlices data) with
    | .error e => .crashed e
    | .ok vs => .ok vs

/-- Projection: the layout map of a completed `fix_model` run. -/
def fixLayout (input : Option Doc) : List (String × LayoutEntry) :=
  match fix_model input with
  | .ok out => out.layout
  | _ => []

/-- Projection: the slices of a completed `fix_model` run. -/
def fixSlices (input : Option Doc) : List Slice :=
  match fix_model input with
  | .ok out => out.slices
  | _ => []

/-- Whether a run completed. -/
def RunResult.isOk {α : Type} : RunResult α → Bool
  | .ok _ => true
  | _ => false

/-- Whether a run crashed with an uncaught exception. -/
def RunResult.isCrashed {α : Type} : RunResult α → Bool
  | .crashed _ => true
  | _ => false


/-! ### Structural lemmas: flat element lists vs the nested slice state -/

theorem allElements_nil : allElements [] = [] := rfl

theorem allElements_cons (s : Slice) (rest : List Slice) :
    allElements (s :: rest) = sliceElements s ++ allElements rest := by
  simp [allElements]

theorem memberId_append (xs ys : List Element) (i : String) :
    memberId (xs ++ ys) i = (memberId xs i || memberId ys i) := by
  simp [memberId, List.any_append]

theorem memberId_nil (i : String) : memberId [] i = false := rfl

theorem updLastEl_of_not_mem (i : String) (f : Element → Element)
    (els : List Element) (h : memberId els i = false) :
    updLastEl i f els = els := by
  induction els with
  | nil => rfl
  | cons el rest ih =>
    have h1 : (el.id == some i) = false := by
      by_contra hc
      simp only [memberId, List.any_cons, Bool.or_eq_false_iff] at h
      exact absurd h.1 hc
    have h2 : memberId rest i = false := by
      simp only [memberId, List.any_cons, Bool.or_eq_false_iff] at h
      exact h.2
    simp [updLastEl, h1, h2]

theorem lookupEl_of_not_mem (i : String) (els : List Element)
    (h : memberId els i = false) : lookupEl i els = none := by
  induction els with
  | nil => rfl
  | cons el rest ih =>
    have h1 : (el.id == some i) = false := by
      simp only [memberId, List.any_cons, Bool.or_eq_false_iff] at h
      exact h.1
    have h2 : memberId rest i = false := by
      simp only [memberId, List.any_cons, Bool.or_eq_false_iff] at h
      exact h.2
    simp [lookupEl, h1, h2]

theorem updLastEl_append (i : String) (f : Element → Element)
    (xs ys : List Element) :
    updLastEl i f (xs ++ ys) =
      if memberId ys i then xs ++ updLastEl i f ys
      else updLastEl i f xs ++ ys := by
  induction xs with
  | nil =>
    by_cases h : memberId ys i
    · simp [h]
    · simp [updLastEl, h, updLastEl_of_not_mem i f ys (by simpa using h)]
  | cons el rest ih =>
    by_cases h : memberId ys i
    · simp [updLastEl, memberId_append, h, ih]
    · by_cases hr : memberId rest i
      · simp [updLastEl, memberId_append, h, hr, ih]
      · by_cases he : (el.id == some i) = true <;>
          simp [updLastEl, memberId_append, h, hr, he]

theorem memberId_sliceElements (s : Slice) (i : String) :
    memberId (sliceElements s) i =
      (memberId s.commands i || memberId s.events i || memberId s.readmodels i ||
       memberId s.screens i || memberId s.processors i ||
       memberId s.integrationEvents i) := by
  simp [sliceElements, memberId_append, Bool.or_assoc]

theorem sliceElements_updLastSlice (i : String) (f : Element → Element)
    (s : Slice) :
    sliceElements (updLastSlice i f s) = updLastEl i f (sliceElements s) := by
  unfold updLastSlice
  by_cases h6 : memberId s.integrationEvents i
  · simp [h6, sliceElements, updLastEl_append, memberId_append]
  · by_cases h5 : memberId s.processors i
    · simp [h5, h6, sliceElements, updLastEl_append, memberId_append]
    · by_cases h4 : memberId s.screens i
      · simp [h4, h5, h6, sliceElements, updLastEl_append, memberId_append]
      · by_cases h3 : memberId s.readmodels i
        · simp [h3, h4, h5, h6, sliceElements, updLastEl_append, memberId_append]
        · by_cases h2 : memberId s.events i
          · simp [h2, h3, h4, h5, h6, sliceElements, updLastEl_append, memberId_append]
          · simp [h2, h3, h4, h5, h6, sliceElements, updLastEl_append, memberId_append]

theorem allElements_updLast (i : String) (f : Element → Element)
    (ss : List Slice) :
    allElements (updLast i f ss) = updLastEl i f (allElements ss) := by
  induction ss with
  | nil => rfl
  | cons s rest ih =>
    by_cases h : memberId (allElements rest) i
    · simp only [updLast, h, if_true, allElements_cons, ih,
        updLastEl_append, h]
    · simp only [Bool.not_eq_true] at h
      simp only [updLast, h, if_false, allElements_cons,
        updLastEl_append, h, sliceElements_updLastSlice, Bool.false_eq_true]


theorem lookupEl_append (j : String) (xs ys : List Element) :
    lookupEl j (xs ++ ys) =
      if memberId ys j then lookupEl j ys else lookupEl j xs := by
  induction xs with
  | nil =>
    by_cases h : memberId ys j
    · simp [h]
    · simp [lookupEl, h, lookupEl_of_not_mem j ys (by simpa using h)]
  | cons el rest ih =>
    by_cases h : memberId ys j
    · simp [lookupEl, memberId_append, h, ih]
    · by_cases hr : memberId rest j
      · simp [lookupEl, memberId_append, h, hr, ih]
      · by_cases he : (el.id == some j) = true <;>
          simp [lookupEl, memberId_append, h, hr, he]

theorem lookupEl_mem (i : String) (els : List Element) (el : Element)
    (h : lookupEl i els = some el) : el ∈ els ∧ el.id = some i := by
  induction els with
  | nil => simp [lookupEl] at h
  | cons x rest ih =>
    by_cases hm : memberId rest i
    · simp only [lookupEl, hm, if_true] at h
      rcases ih h with ⟨h1, h2⟩
      exact ⟨List.mem_cons_of_mem _ h1, h2⟩
    · simp only [lookupEl, hm] at h
      by_cases he : (x.id == some i) = true
      · simp only [he, if_true] at h
        cases h
        exact ⟨List.mem_cons_self _ _, by simpa using he⟩
      · simp [he] at h

theorem updLastEl_decomp (i : String) (els : List Element)
    (h : memberId els i = true) :
    ∃ l1 el l2, els = l1 ++ el :: l2 ∧ el.id = some i ∧
      memberId l2 i = false ∧ lookupEl i els = some el ∧
      ∀ f, updLastEl i f els = l1 ++ f el :: l2 := by
  induction els with
  | nil => simp [memberId] at h
  | cons x rest ih =>
    by_cases hm : memberId rest i
    · rcases ih hm with ⟨l1, el, l2, hsplit, hid, hl2, hlook, hupd⟩
      refine ⟨x :: l1, el, l2, by simp [hsplit], hid, hl2, ?_, ?_⟩
      · simp [lookupEl, hm, hlook]
      · intro f
        simp [updLastEl, hm, hupd f]
    · have hx : (x.id == some i) = true := by
        simp only [memberId, List.any_cons, Bool.or_eq_true] at h
        rcases h with h | h
        · exact h
        · exact absurd h (by simpa [memberId] using hm)
      refine ⟨[], x, rest, by simp, by simpa using hx, by simpa using hm, ?_, ?_⟩
      · simp [lookupEl, hm, hx]
      · intro f
        simp [updLastEl, hm, hx]

theorem updLastEl_map_proj {β : Type} (g : Element → β) (i : String)
    (f : Element → Element) (els : List Element)
    (hf : ∀ el, (f el).id = el.id ∧ g (f el) = g el) :
    (updLastEl i f els).map (fun el => (el.id, g el)) =
      els.map (fun el => (el.id, g el)) := by
  induction els with
  | nil => rfl
  | cons x rest ih =>
    by_cases hm : memberId rest i
    · simp [updLastEl, hm, ih]
    · by_cases hx : (x.id == some i) = true
      · simp [updLastEl, hm, hx, (hf x).1, (hf x).2]
      · simp [updLastEl, hm, hx]

theorem memberId_eq_of_idmap (a : List Element) :
    ∀ b : List Element,
      a.map (fun el => el.id) = b.map (fun el => el.id) →
      ∀ i : String, memberId a i = memberId b i := by
  induction a with
  | nil =>
    intro b h i
    cases b with
    | nil => rfl
    | cons y ys => simp at h
  | cons x xs ih =>
    intro b h i
    cases b with
    | nil => simp at h
    | cons y ys =>
      simp only [List.map_cons, List.cons.injEq] at h
      have ht := ih ys h.2 i
      simp only [memberId, List.any_cons] at ht ⊢
      rw [h.1, ht]

theorem idmap_of_projmap {β : Type} (g : Element → β) (a b : List Element)
    (h : a.map (fun el => (el.id, g el)) = b.map (fun el => (el.id, g el))) :
    a.map (fun el => el.id) = b.map (fun el => el.id) := by
  have := congrArg (List.map (fun q : Option String × β => q.1)) h
  simpa [List.map_map, Function.comp] using this

theorem lookupEl_map_proj {β : Type} (g : Element → β) (i : String)
    (a : List Element) :
    ∀ b : List Element,
      a.map (fun el => (el.id, g el)) = b.map (fun el => (el.id, g el)) →
      (lookupEl i a).map g = (lookupEl i b).map g := by
  induction a with
  | nil =>
    intro b h
    have : b = [] := by
      cases b with
      | nil => rfl
      | cons y ys => simp at h
    subst this
    rfl
  | cons x xs ih =>
    intro b h
    cases b with
    | nil => simp at h
    | cons y ys =>
      simp only [List.map_cons, List.cons.injEq, Prod.mk.injEq] at h
      rcases h with ⟨⟨hid, hg⟩, htail⟩
      have hmem : memberId xs i = memberId ys i :=
        memberId_eq_of_idmap xs ys (idmap_of_projmap g xs ys htail) i
      by_cases hm : memberId xs i
      · have hm' : memberId ys i = true := by rw [← hmem]; exact hm
        simp only [lookupEl, hm, hm', if_true]
        exact ih ys htail
      · have hm' : memberId ys i = false := by
          rw [← hmem]; simpa using hm
      
        by_cases hx : (x.id == some i) = true
        · have hy : (y.id == some i) = true := by rw [← hid]; exact hx
          simp [lookupEl, hm, hm', hx, hy, hg]
        · have hy : (y.id == some i) = false := by
            rw [← hid]; simpa using hx
          simp [lookupEl, hm, hm', hx, hy]

theorem lookupEl_updLastEl (i j : String) (f : Element → Element)
    (els : List Element) (hf : ∀ el, (f el).id = el.id) :
    lookupEl j (updLastEl i f els) =
      if j = i then (lookupEl i els).map f else lookupEl j els := by
  by_cases hm : memberId els i
  · rcases updLastEl_decomp i els hm with ⟨l1, el, l2, hsplit, hid, hl2, hlook, hupd⟩
    rw [hupd f]
    by_cases hj : j = i
    · subst hj
      have hm2 : memberId (f el :: l2) j = true := by
        simp [memberId, hf el, hid]
      rw [lookupEl_append, if_pos hm2, hlook]
      simp [lookupEl, hl2, hf el, hid]
    · have hm2 : memberId (f el :: l2) j = memberId l2 j := by
        have : (Element.id (f el) == some j) = false := by
          rw [hf el, hid]
          simp
          intro hcontra
          exact hj hcontra.symm
        simp [memberId, this]
      have hm3 : memberId (el :: l2) j = memberId l2 j := by
        have : (el.id == some j) = false := by
          rw [hid]
          simp
          intro hcontra
          exact hj hcontra.symm
        simp [memberId, this]
      rw [hsplit, if_neg hj, lookupEl_append, lookupEl_append, hm2, hm3]
      by_cases hl : memberId l2 j
      · simp [hl, lookupEl]
      · simp only [hl, Bool.false_eq_true, if_false]
  · rw [updLastEl_of_not_mem i f els (by simpa using hm)]
    by_cases hj : j = i
    · subst hj
      rw [lookupEl_of_not_mem j els (by simpa using hm)]
      simp
    · rw [if_neg hj]



/-! ### Edge synthesis: case analysis and invariants -/

theorem lookupEl_isSome_of_member (i : String) (els : List Element)
    (h : memberId els i = true) : ∃ el, lookupEl i els = some el := by
  rcases updLastEl_decomp i els h with ⟨l1, el, l2, _, _, _, hlook, _⟩
  exact ⟨el, hlook⟩

theorem appendDep_id (d : Dep) (el : Element) : (appendDep d el).id = el.id := rfl

theorem inboundDeps_appendDep (d : Dep) (el : Element)
    (h : d.type = some "OUTBOUND") :
    inboundDeps (appendDep d el) = inboundDeps el := by
  simp [inboundDeps, appendDep, List.filter_append, h]

theorem outboundIds_appendDep (d : Dep) (el : Element)
    (h : d.type = some "OUTBOUND") :
    outboundIds (appendDep d el) = outboundIds el ++ [d.id] := by
  simp [outboundIds, appendDep, List.filterMap_append, h]

theorem skelFields_appendDep (d : Dep) (el : Element) :
    (appendDep d el).title = el.title ∧ (appendDep d el).type = el.type ∧
      (appendDep d el).context = el.context :=
  ⟨rfl, rfl, rfl⟩

/-- The dependency appended for target `k` with INBOUND edge `d`, given the
target's schema type `ty`. -/
def newDep (k : String) (d : Dep) (ty : String) : Dep :=
  { id := k, type := some "OUTBOUND", title := some (d.title.getD ""),
    elementType := some ty }

theorem synthStep_ok_cases (ss : List Slice) (k : String) (d : Dep)
    (ss' : List Slice) (h : synthStep ss k d = .ok ss') :
    (memberId (allElements ss) d.id = false ∧ ss' = ss) ∨
    (∃ src, lookupEl d.id (allElements ss) = some src ∧
       (outboundIds src).contains k = true ∧ ss' = ss) ∨
    (∃ src ty, lookupEl d.id (allElements ss) = some src ∧
       (outboundIds src).contains k = false ∧
       (lookupEl k (allElements ss)).bind (fun el => el.type) = some ty ∧
       ss' = updLast d.id (appendDep (newDep k d ty)) ss) := by
  unfold synthStep at h
  by_cases hm : memberId (allElements ss) d.id
  · rcases lookupEl_isSome_of_member d.id (allElements ss) hm with ⟨src, hsrc⟩
    rw [if_pos hm, hsrc] at h
    dsimp only at h
    by_cases hc : (outboundIds src).contains k = true
    · rw [if_pos hc] at h
      right; left
      exact ⟨src, hsrc, hc, by cases h; rfl⟩
    · rw [if_neg hc] at h
      cases hty : (lookupEl k (allElements ss)).bind (fun el => el.type) with
      | none => rw [hty] at h; cases h
      | some ty =>
        rw [hty] at h
        right; right
        refine ⟨src, ty, hsrc, by simpa using hc, rfl, ?_⟩
        cases h
        rfl
  · left
    rw [if_neg hm] at h
    exact ⟨by simpa using hm, by cases h; rfl⟩

theorem newDep_type (k : String) (d : Dep) (ty : String) :
    (newDep k d ty).type = some "OUTBOUND" := rfl

theorem synthStep_map_proj {β : Type} (g : Element → β)
    (hg : ∀ d0 el, d0.type = some "OUTBOUND" → g (appendDep d0 el) = g el)
    (ss : List Slice) (k : String) (d : Dep) (ss' : List Slice)
    (h : synthStep ss k d = .ok ss') :
    (allElements ss').map (fun el => (el.id, g el)) =
      (allElements ss).map (fun el => (el.id, g el)) := by
  rcases synthStep_ok_cases ss k d ss' h with ⟨_, rfl⟩ | ⟨src, _, _, rfl⟩ |
    ⟨src, ty, hsrc, hc, hty, rfl⟩
  · rfl
  · rfl
  · rw [allElements_updLast]
    exact updLastEl_map_proj g d.id _ (allElements ss)
      (fun el => ⟨appendDep_id _ el, hg (newDep k d ty) el (newDep_type k d ty)⟩)

theorem runTasks_map_proj {β : Type} (g : Element → β)
    (hg : ∀ d0 el, d0.type = some "OUTBOUND" → g (appendDep d0 el) = g el) :
    ∀ (tasks : List (String × Dep)) (ss ss' : List Slice),
      runTasks ss tasks = .ok ss' →
      (allElements ss').map (fun el => (el.id, g el)) =
        (allElements ss).map (fun el => (el.id, g el)) := by
  intro tasks
  induction tasks with
  | nil =>
    intro ss ss' h
    cases h
    rfl
  | cons p rest ih =>
    intro ss ss' h
    rcases p with ⟨k, d⟩
    cases hstep : synthStep ss k d with
    | error e => rw [runTasks, hstep] at h; cases h
    | ok ss1 =>
      rw [runTasks, hstep] at h
      exact (ih ss1 ss' h).trans (synthStep_map_proj g hg ss k d ss1 hstep)

theorem runTasks_append (t1 t2 : List (String × Dep)) :
    ∀ ss : List Slice,
      runTasks ss (t1 ++ t2) = (runTasks ss t1).bind (fun s => runTasks s t2) := by
  induction t1 with
  | nil =>
    intro ss
    rfl
  | cons p rest ih =>
    intro ss
    rcases p with ⟨k, d⟩
    cases hstep : synthStep ss k d with
    | error e => rw [List.cons_append, runTasks, hstep, runTasks, hstep]; rfl
    | ok ss1 => rw [List.cons_append, runTasks, hstep, runTasks, hstep]; exact ih ss1


/-! ### The OUTBOUND edge relation and its evolution under synthesis -/

/-- The graph has an OUTBOUND edge from the element with id `s` to id `t`. -/
def HasEdge (ss : List Slice) (s t : String) : Prop :=
  ∃ el, el ∈ allElements ss ∧ el.id = some s ∧ t ∈ outboundIds el

theorem memberId_of_mem (els : List Element) (el : Element) (i : String)
    (h1 : el ∈ els) (h2 : el.id = some i) : memberId els i = true := by
  simp only [memberId, List.any_eq_true]
  exact ⟨el, h1, by simp [h2]⟩

theorem member_of_lookup (i : String) (els : List Element) (el : Element)
    (h : lookupEl i els = some el) : memberId els i = true := by
  rcases lookupEl_mem i els el h with ⟨h1, h2⟩
  exact memberId_of_mem els el i h1 h2

theorem hasEdge_iff_projmap (a b : List Slice)
    (h : (allElements a).map (fun el => (el.id, outboundIds el)) =
         (allElements b).map (fun el => (el.id, outboundIds el)))
    (s t : String) : HasEdge a s t ↔ HasEdge b s t := by
  constructor
  · rintro ⟨el, hmem, hid, ht⟩
    have hq : ((el.id, outboundIds el) : Option String × List String) ∈
        (allElements b).map (fun el => (el.id, outboundIds el)) := by
      rw [← h]
      exact List.mem_map_of_mem _ hmem
    rcases List.mem_map.mp hq with ⟨el', hmem', heq⟩
    refine ⟨el', hmem', ?_, ?_⟩
    · rw [← (Prod.mk.injEq _ _ _ _).mp heq.symm |>.1, hid]
    · rw [← (Prod.mk.injEq _ _ _ _).mp heq.symm |>.2]
      exact ht
  · rintro ⟨el, hmem, hid, ht⟩
    have hq : ((el.id, outboundIds el) : Option String × List String) ∈
        (allElements a).map (fun el => (el.id, outboundIds el)) := by
      rw [h]
      exact List.mem_map_of_mem _ hmem
    rcases List.mem_map.mp hq with ⟨el', hmem', heq⟩
    refine ⟨el', hmem', ?_, ?_⟩
    · rw [← (Prod.mk.injEq _ _ _ _).mp heq.symm |>.1, hid]
    · rw [← (Prod.mk.injEq _ _ _ _).mp heq.symm |>.2]
      exact ht

theorem synthStep_hasEdge (ss : List Slice) (k : String) (d : Dep)
    (ss' : List Slice) (h : synthStep ss k d = .ok ss') (s t : String) :
    HasEdge ss' s t ↔
      (HasEdge ss s t ∨
        (d.id = s ∧ k = t ∧ memberId (allElements ss) s = true)) := by
  rcases synthStep_ok_cases ss k d ss' h with ⟨hm, rfl⟩ | ⟨src, hsrc, hc, rfl⟩ |
    ⟨src, ty, hsrc, hc, hty, rfl⟩
  · constructor
    · intro he
      exact Or.inl he
    · rintro (he | ⟨rfl, rfl, hmem⟩)
      · exact he
      · rw [hmem] at hm
        cases hm
  · constructor
    · intro he
      exact Or.inl he
    · rintro (he | ⟨rfl, rfl, hmem⟩)
      · exact he
      · rcases lookupEl_mem _ _ _ hsrc with ⟨hmem2, hid2⟩
        exact ⟨src, hmem2, hid2, by simpa using hc⟩
  · have hmem0 : memberId (allElements ss) d.id = true := member_of_lookup _ _ _ hsrc
    rcases updLastEl_decomp d.id (allElements ss) hmem0 with
      ⟨l1, el0, l2, hsplit, hid0, hl20, hlook0, hupd0⟩
    have hel0 : el0 = src := by
      rw [hlook0] at hsrc
      cases hsrc
      rfl
    subst hel0
    simp only [HasEdge, allElements_updLast, hupd0]
    constructor
    · rintro ⟨el, hmem, hid, ht⟩
      rw [List.mem_append, List.mem_cons] at hmem
      rcases hmem with h1 | h2 | h3
      · exact Or.inl ⟨el, by rw [hsplit]; simp [h1], hid, ht⟩
      · subst h2
        rw [outboundIds_appendDep _ _ (newDep_type k d ty)] at ht
        rw [List.mem_append] at ht
        rcases ht with ht | ht
        · refine Or.inl ⟨el0, by rw [hsplit]; simp, ?_, ht⟩
          rw [appendDep_id] at hid
          exact hid
        · simp only [newDep, List.mem_singleton] at ht
          subst ht
          right
          rw [appendDep_id, hid0] at hid
          cases hid
          exact ⟨rfl, rfl, hmem0⟩
      · exact Or.inl ⟨el, by rw [hsplit]; simp [h3], hid, ht⟩
    · rintro (⟨el, hmem, hid, ht⟩ | ⟨rfl, rfl, hmem⟩)
      · rw [hsplit, List.mem_append, List.mem_cons] at hmem
        rcases hmem with h1 | h2 | h3
        · exact ⟨el, by simp [h1], hid, ht⟩
        · subst h2
          refine ⟨appendDep (newDep k d ty) el, by simp, ?_, ?_⟩
          · rw [appendDep_id]
            exact hid
          · rw [outboundIds_appendDep _ _ (newDep_type k d ty)]
            exact List.mem_append_left _ ht
        · exact ⟨el, by simp [h3], hid, ht⟩
      · refine ⟨appendDep (newDep k d ty) el0, by simp, ?_, ?_⟩
        · rw [appendDep_id]
          exact hid0
        · rw [outboundIds_appendDep _ _ (newDep_type k d ty)]
          simp [newDep]

theorem idmap_runTasks (tasks : List (String × Dep)) (ss ss' : List Slice)
    (h : runTasks ss tasks = .ok ss') :
    (allElements ss').map (fun el => el.id) =
      (allElements ss).map (fun el => el.id) :=
  idmap_of_projmap (fun _ => ()) _ _
    (runTasks_map_proj (fun _ => ()) (fun _ _ _ => rfl) tasks ss ss' h)

theorem runTasks_hasEdge :
    ∀ (tasks : List (String × Dep)) (ss ss' : List Slice),
      runTasks ss tasks = .ok ss' → ∀ s t : String,
      (HasEdge ss' s t ↔
        (HasEdge ss s t ∨
          ∃ p, p ∈ tasks ∧ p.2.id = s ∧ p.1 = t ∧
            memberId (allElements ss) s = true)) := by
  intro tasks
  induction tasks with
  | nil =>
    intro ss ss' h s t
    cases h
    simp
  | cons p rest ih =>
    intro ss ss' h s t
    rcases p with ⟨k, d⟩
    cases hstep : synthStep ss k d with
    | error e => rw [runTasks, hstep] at h; cases h
    | ok ss1 =>
      rw [runTasks, hstep] at h
      have hmemeq : ∀ j, memberId (allElements ss1) j = memberId (allElements ss) j := by
        intro j
        exact memberId_eq_of_idmap _ _
          (idmap_of_projmap (fun _ => ()) _ _
            (synthStep_map_proj (fun _ => ()) (fun _ _ _ => rfl) ss k d ss1 hstep)) j
      rw [ih ss1 ss' h s t, synthStep_hasEdge ss k d ss1 hstep s t]
      constructor
      · rintro ((he | ⟨h1, h2, h3⟩) | ⟨q, hq, h1, h2, h3⟩)
        · exact Or.inl he
        · exact Or.inr ⟨(k, d), List.mem_cons_self _ _, h1, h2, h3⟩
        · rw [hmemeq s] at h3
          exact Or.inr ⟨q, List.mem_cons_of_mem _ hq, h1, h2, h3⟩
      · rintro (he | ⟨q, hq, h1, h2, h3⟩)
        · exact Or.inl (Or.inl he)
        · rw [List.mem_cons] at hq
          rcases hq with rfl | hq
        
          · exact Or.inl (Or.inr ⟨h1, h2, h3⟩)
          · exact Or.inr ⟨q, hq, h1, h2, by rw [hmemeq s]; exact h3⟩


/-! ### The outer loop visits a task list fixed by the initial state -/

theorem synthTasksFor_eq (ss ss' : List Slice)
    (h : (allElements ss).map (fun el => (el.id, inboundDeps el)) =
         (allElements ss').map (fun el => (el.id, inboundDeps el)))
    (k : String) : synthTasksFor ss k = synthTasksFor ss' k := by
  have hl := lookupEl_map_proj inboundDeps k (allElements ss) (allElements ss') h
  unfold synthTasksFor
  cases h1 : lookupEl k (allElements ss) with
  | none =>
    cases h2 : lookupEl k (allElements ss') with
    | none => rfl
    | some el2 => rw [h1, h2] at hl; simp at hl
  | some el1 =>
    cases h2 : lookupEl k (allElements ss') with
    | none => rw [h1, h2] at hl; simp at hl
    | some el2 =>
      rw [h1, h2] at hl
      have : inboundDeps el1 = inboundDeps el2 := by simpa using hl
      simp [this]

theorem synthOuter_eq_runTasks :
    ∀ (keys : List String) (ss : List Slice),
      synthOuter ss keys =
        runTasks ss ((keys.map (synthTasksFor ss)).flatten) := by
  intro keys
  induction keys with
  | nil => intro ss; rfl
  | cons k keys ih =>
    intro ss
    rw [List.map_cons, List.flatten_cons, runTasks_append]
    cases hr : runTasks ss (synthTasksFor ss k) with
    | error e => rw [synthOuter, hr]; rfl
    | ok ss1 =>
      rw [synthOuter, hr]
      show synthOuter ss1 keys = _
      rw [ih ss1]
      have hproj := runTasks_map_proj inboundDeps
        (fun d0 el hd0 => inboundDeps_appendDep d0 el hd0) _ _ _ hr
      have : keys.map (synthTasksFor ss1) = keys.map (synthTasksFor ss) := by
        apply List.map_congr_left
        intro a _
        exact synthTasksFor_eq ss1 ss hproj a
      rw [this]
      rfl

/-- The full synthesis task list, read off the post-normalization state. -/
def synthTasks (ss : List Slice) : List (String × Dep) :=
  ((mapKeys ss).map (synthTasksFor ss)).flatten

theorem synthesis_eq_runTasks (ss : List Slice) :
    synthesis ss = runTasks ss (synthTasks ss) :=
  synthOuter_eq_runTasks (mapKeys ss) ss

/-! ### Purge lemmas -/

theorem purgeDeps_id (el : Element) : (purgeDeps el).id = el.id := rfl

theorem filterMap_out_of_filter_out (l : List Dep) :
    (l.filter (fun d => d.type == some "OUTBOUND")).filterMap
        (fun d => if d.type == some "OUTBOUND" then some d.id else none) =
      l.filterMap (fun d => if d.type == some "OUTBOUND" then some d.id else none) := by
  induction l with
  | nil => rfl
  | cons d l ih =>
    by_cases hd : (d.type == some "OUTBOUND") = true
    · rw [List.filter_cons, if_pos hd, List.filterMap_cons, List.filterMap_cons,
        if_pos hd, ih]
    · rw [List.filter_cons, if_neg hd, List.filterMap_cons, if_neg hd, ih]

theorem outboundIds_purgeDeps (el : Element) :
    outboundIds (purgeDeps el) = outboundIds el := by
  unfold outboundIds purgeDeps
  simp only [Option.getD_some]
  exact filterMap_out_of_filter_out (el.dependencies.getD [])

theorem filter_in_of_filter_out (l : List Dep) :
    (l.filter (fun d => d.type == some "OUTBOUND")).filter
        (fun d => d.type == some "INBOUND") = [] := by
  induction l with
  | nil => rfl
  | cons d l ih =>
    by_cases hd : (d.type == some "OUTBOUND") = true
    · have hd' : d.type = some "OUTBOUND" := beq_iff_eq.mp hd
      have hin : (d.type == some "INBOUND") = false := by simp [hd']
      rw [List.filter_cons, if_pos hd, List.filter_cons, hin, ih]
      simp
    · rw [List.filter_cons, if_neg hd, ih]

theorem inboundDeps_purgeDeps (el : Element) :
    inboundDeps (purgeDeps el) = [] := by
  unfold inboundDeps purgeDeps
  simp only [Option.getD_some]
  exact filter_in_of_filter_out (el.dependencies.getD [])

theorem purgeDeps_outbound (el : Element) (d : Dep)
    (h : d ∈ (purgeDeps el).dependencies.getD []) :
    d.type = some "OUTBOUND" := by
  simp only [purgeDeps, Option.getD_some, List.mem_filter] at h
  exact beq_iff_eq.mp h.2

theorem foldl_updLast_map_proj {β : Type} (g : Element → β)
    (f : Element → Element) (hf : ∀ el, (f el).id = el.id ∧ g (f el) = g el) :
    ∀ (K : List String) (ss : List Slice),
      (allElements (K.foldl (fun acc k => updLast k f acc) ss)).map
          (fun el => (el.id, g el)) =
        (allElements ss).map (fun el => (el.id, g el)) := by
  intro K
  induction K with
  | nil => intro ss; rfl
  | cons k K ih =>
    intro ss
    rw [List.foldl_cons]
    refine (ih (updLast k f ss)).trans ?_
    rw [allElements_updLast]
    exact updLastEl_map_proj g k f (allElements ss) hf

theorem hasEdge_purge (ss : List Slice) (s t : String) :
    HasEdge (purge ss) s t ↔ HasEdge ss s t := by
  apply hasEdge_iff_projmap
  unfold purge
  exact foldl_updLast_map_proj outboundIds purgeDeps
    (fun el => ⟨purgeDeps_id el, outboundIds_purgeDeps el⟩) (mapKeys ss) ss

/-! ### Map keys -/

theorem mem_dedupFirstAux :
    ∀ (l seen : List String) (x : String),
      x ∈ dedupFirstAux seen l ↔ x ∈ l ∧ x ∉ seen := by
  intro l
  induction l with
  | nil => intro seen x; simp [dedupFirstAux]
  | cons y ys ih =>
    intro seen x
    by_cases hy : seen.contains y
    · rw [dedupFirstAux, if_pos hy, ih seen x]
      constructor
      · rintro ⟨h1, h2⟩
        exact ⟨List.mem_cons_of_mem _ h1, h2⟩
      · rintro ⟨h1, h2⟩
        rcases List.mem_cons.mp h1 with rfl | h1
        · exact absurd (by simpa using hy) h2
        · exact ⟨h1, h2⟩
    · rw [dedupFirstAux, if_neg hy]
      constructor
      · intro h
        rcases List.mem_cons.mp h with rfl | h
        · exact ⟨List.mem_cons_self _ _, by simpa using hy⟩
        · rcases (ih (y :: seen) x).mp h with ⟨h1, h2⟩
          refine ⟨List.mem_cons_of_mem _ h1, fun hc => h2 ?_⟩
          exact List.mem_cons_of_mem _ hc
      · rintro ⟨h1, h2⟩
        rcases List.mem_cons.mp h1 with rfl | h1
        · exact List.mem_cons_self _ _
        · by_cases hxy : x = y
          · subst hxy
            exact List.mem_cons_self _ _
          · refine List.mem_cons_of_mem _ ((ih (y :: seen) x).mpr ⟨h1, ?_⟩)
            intro hc
            rcases List.mem_cons.mp hc with h | h
            · exact hxy h
            · exact h2 h

theorem nodup_dedupFirstAux :
    ∀ (l seen : List String), (dedupFirstAux seen l).Nodup := by
  intro l
  induction l with
  | nil => intro seen; simp [dedupFirstAux]
  | cons y ys ih =>
    intro seen
    by_cases hy : seen.contains y
    · rw [dedupFirstAux, if_pos hy]
      exact ih seen
    · rw [dedupFirstAux, if_neg hy]
      refine List.Nodup.cons ?_ (ih (y :: seen))
      intro hc
      rcases (mem_dedupFirstAux ys (y :: seen) y).mp hc with ⟨_, h2⟩
      exact h2 (List.mem_cons_self _ _)

theorem mem_mapKeys (ss : List Slice) (j : String) :
    j ∈ mapKeys ss ↔ memberId (allElements ss) j = true := by
  unfold mapKeys
  rw [mem_dedupFirstAux]
  simp only [List.mem_filterMap, List.not_mem_nil, not_false_iff, and_true]
  simp only [memberId, List.any_eq_true]
  constructor
  · rintro ⟨el, h1, h2⟩
    exact ⟨el, h1, by simp [h2]⟩
  · rintro ⟨el, h1, h2⟩
    exact ⟨el, h1, by simpa using h2⟩

theorem nodup_mapKeys (ss : List Slice) : (mapKeys ss).Nodup :=
  nodup_dedupFirstAux _ _

theorem lookupEl_updLast_all (i j : String) (f : Element → Element)
    (hf : ∀ el, (f el).id = el.id) (ss : List Slice) :
    lookupEl j (allElements (updLast i f ss)) =
      if j = i then (lookupEl i (allElements ss)).map f
      else lookupEl j (allElements ss) := by
  rw [allElements_updLast]
  exact lookupEl_updLastEl i j f (allElements ss) hf

theorem foldl_updLast_lookup (f : Element → Element)
    (hf : ∀ el, (f el).id = el.id) :
    ∀ (K : List String), K.Nodup → ∀ (ss : List Slice) (j : String),
      lookupEl j (allElements (K.foldl (fun acc k => updLast k f acc) ss)) =
        if j ∈ K then (lookupEl j (allElements ss)).map f
        else lookupEl j (allElements ss) := by
  intro K
  induction K with
  | nil => intro _ ss j; simp
  | cons k K ih =>
    intro hnd ss j
    rw [List.foldl_cons, ih (List.Nodup.of_cons hnd) (updLast k f ss) j]
    by_cases hjk : j = k
    · subst hjk
      have hjK : j ∉ K := (List.nodup_cons.mp hnd).1
      rw [if_neg hjK, lookupEl_updLast_all j j f hf ss, if_pos rfl,
        if_pos (List.mem_cons_self j K)]
    · rw [lookupEl_updLast_all k j f hf ss, if_neg hjk]
      by_cases hjK : j ∈ K
      · rw [if_pos hjK, if_pos (List.mem_cons_of_mem _ hjK)]
      · rw [if_neg hjK, if_neg (by simp [hjk, hjK])]

theorem purge_lookup (ss : List Slice) (j : String) :
    lookupEl j (allElements (purge ss)) =
      (lookupEl j (allElements ss)).map purgeDeps := by
  unfold purge
  rw [foldl_updLast_lookup purgeDeps (fun el => purgeDeps_id el)
    (mapKeys ss) (nodup_mapKeys ss) ss j]
  by_cases hj : j ∈ mapKeys ss
  · rw [if_pos hj]
  · rw [if_neg hj]
    have : memberId (allElements ss) j = false := by
      rcases Bool.eq_false_or_eq_true (memberId (allElements ss) j) with h | h
      · exact absurd ((mem_mapKeys ss j).mpr h) hj
      · exact h
    rw [lookupEl_of_not_mem j (allElements ss) this]
    rfl


/-! ### Concrete example material -/

/-- Build an element with all fields present. -/
def mkEl (i t ty : String) (deps : List Dep) : Element :=
  { id := some i, title := some t, type := some ty, context := none,
    dependencies := some deps }

/-- An INBOUND dependency referencing `src`, displaying `ty`. -/
def inbDep (src ty : String) (ttl : Option String) : Dep :=
  { id := src, type := some "INBOUND", title := ttl, elementType := some ty }

/-- Wrap slices into an input document. -/
def mkDoc (ss : List Slice) : Doc :=
  { eventModel := some { slices := some ss } }

/-- A slice with only the given buckets populated. -/
def mkSlice (i : String) (cs es rs scs ps ies : List Element) : Slice :=
  { id := i, commands := cs, events := es, readmodels := rs, screens := scs,
    processors := ps, integrationEvents := ies }

/-- Extract the slices of a successful synthesis result. -/
def okOr (r : Except String (List Slice)) : List Slice :=
  match r with
  | .ok s => s
  | .error _ => []

/-- Normalized graph for the C2 witness: a screen `F` and a command `E`
holding an INBOUND edge referencing `F`. -/
def w2ss : List Slice :=
  [mkSlice "S1" [mkEl "E" "tE" "COMMAND" [inbDep "F" "SCREEN" (some "t")]] []
    [] [mkEl "F" "tF" "SCREEN" []] [] []]

/-- The synthesis result on `w2ss`. -/
def w2out : List Slice := okOr (synthesis w2ss)

/-- C2: for a fixed input graph, the final OUTBOUND edge set (as a relation on
(source id, target id)) after synthesis and the INBOUND purge is the same for
the actual visitation order and for any permutation of the (element, INBOUND
edge) task list, provided both runs complete. -/
theorem C2_synthesis_order_independent (ss : List Slice)
    (tasks2 : List (String × Dep)) (s1 s2 : List Slice)
    (hperm : tasks2.Perm (synthTasks ss))
    (h1 : synthesis ss = .ok s1)
    (h2 : runTasks ss tasks2 = .ok s2)
    (s t : String) : HasEdge (purge s1) s t ↔ HasEdge (purge s2) s t := by
  rw [hasEdge_purge, hasEdge_purge]
  rw [synthesis_eq_runTasks] at h1
  rw [runTasks_hasEdge (synthTasks ss) ss s1 h1 s t,
      runTasks_hasEdge tasks2 ss s2 h2 s t]
  constructor
  · rintro (he | ⟨p, hp, h3, h4, h5⟩)
    · exact Or.inl he
    · exact Or.inr ⟨p, hperm.mem_iff.mpr hp, h3, h4, h5⟩
  · rintro (he | ⟨p, hp, h3, h4, h5⟩)
    · exact Or.inl he
    · exact Or.inr ⟨p, hperm.mem_iff.mp hp, h3, h4, h5⟩

/-- Witness for C2 at a concrete graph: the actual run and the (trivially
permuted) task-list run produce the same edge relation. -/
theorem C2_witness :
    synthesis w2ss = .ok w2out ∧
      (HasEdge (purge w2out) "F" "E" ↔ HasEdge (purge w2out) "F" "E") :=
  ⟨rfl,
    C2_synthesis_order_independent w2ss (synthTasks w2ss) w2out w2out
      (List.Perm.refl _) rfl (by rw [← synthesis_eq_runTasks]; rfl) "F" "E"⟩


/-! ### Layout: the computed map is a pure function of slice index, type, rank -/

/-- The coordinates the spec ascribes to an element: a pure function of the
slice position, the layout type and the row rank among same-type elements. -/
def layoutCoord (sliceIdx : Nat) (t : String) (rank : Nat) : Nat × Nat :=
  (sliceIdx * (SLICE_WIDTH + SLICE_GAP) + TYPE_X t,
   BASE_Y + rank * ROW_HEIGHT)

/-- The number of elements of layout type `t` strictly before position `p`. -/
def rankBefore (els : List Element) (p : Nat) (t : String) : Nat :=
  ((els.take p).filter (fun e => layoutType e == t)).length

/-- The layout entry of the element at position `p` of a slice at index `i`,
computed by the closed form, with initial row counters `c`. -/
def entryAtC (c : String → Nat) (i : Nat) (els : List Element) (p : Nat) :
    String × LayoutEntry :=
  ((els.getD p default).id.getD "",
    { x := (layoutCoord i (layoutType (els.getD p default))
        (c (layoutType (els.getD p default)) +
          rankBefore els p (layoutType (els.getD p default)))).1,
      y := (layoutCoord i (layoutType (els.getD p default))
        (c (layoutType (els.getD p default)) +
          rankBefore els p (layoutType (els.getD p default)))).2,
      height := 120, type := layoutType (els.getD p default),
      title := (els.getD p default).title.getD "" })

/-- The closed-form layout of the whole graph, starting at slice index `idx`. -/
def pureLayout : Nat → List Slice → List (String × LayoutEntry)
  | _, [] => []
  | idx, s :: rest =>
    (List.range (sliceElements s).length).map
        (entryAtC (fun _ => 0) idx (sliceElements s)) ++
      pureLayout (idx + 1) rest

theorem rankBefore_zero (els : List Element) (t : String) :
    rankBefore els 0 t = 0 := by
  simp [rankBefore]

theorem rankBefore_cons_succ (el : Element) (rest : List Element) (p : Nat)
    (t : String) :
    rankBefore (el :: rest) (p + 1) t =
      (if layoutType el = t then 1 else 0) + rankBefore rest p t := by
  unfold rankBefore
  rw [List.take_succ_cons, List.filter_cons]
  by_cases h : layoutType el = t
  · simp [h, Nat.add_comm]
  · simp [h]

theorem layoutElems_ok (i : Nat) :
    ∀ (els : List Element) (c : String → Nat)
      (l : List (String × LayoutEntry)),
      layoutElems (i * (SLICE_WIDTH + SLICE_GAP)) c els = .ok l →
      l = (List.range els.length).map (entryAtC c i els) := by
  intro els
  induction els with
  | nil =>
    intro c l h
    cases h
    rfl
  | cons el rest ih =>
    intro c l h
    rw [layoutElems] at h
    cases htitle : el.title with
    | none => rw [htitle] at h; cases h
    | some ttl =>
      rw [htitle] at h
      cases hid : el.id with
      | none => rw [hid] at h; cases h
      | some i0 =>
        rw [hid] at h
        cases hrest : layoutElems (i * (SLICE_WIDTH + SLICE_GAP))
            (fun u => if u = layoutType el then c (layoutType el) + 1 else c u)
            rest with
        | error e => rw [hrest] at h; cases h
        | ok r =>
          rw [hrest] at h
          cases h
          rw [ih _ r hrest]
          rw [List.length_cons, List.range_succ_eq_map, List.map_cons,
            List.map_map]
          congr 1
          · unfold entryAtC layoutCoord
            simp [htitle, hid, rankBefore_zero]
          · apply List.map_congr_left
            intro p _
            show entryAtC _ i rest p = entryAtC c i (el :: rest) (p + 1)
            unfold entryAtC layoutCoord
            have hget : (el :: rest).getD (p + 1) default = rest.getD p default := rfl
            rw [hget, rankBefore_cons_succ el rest p]
            dsimp only
            generalize rest.getD p default = elp
            by_cases ht : layoutType el = layoutType elp
            · have ht2 : layoutType elp = layoutType el := ht.symm
              simp [ht2, Nat.add_comm, Nat.add_left_comm, Nat.add_assoc]
            · have ht2 : ¬layoutType elp = layoutType el :=
                fun hc => ht hc.symm
              simp [ht, ht2]

theorem layoutFrom_ok :
    ∀ (ss : List Slice) (idx : Nat) (l : List (String × LayoutEntry)),
      layoutFrom idx ss = .ok l → l = pureLayout idx ss := by
  intro ss
  induction ss with
  | nil =>
    intro idx l h
    cases h
    rfl
  | cons s rest ih =>
    intro idx l h
    rw [layoutFrom] at h
    cases h1 : layoutElems (idx * (SLICE_WIDTH + SLICE_GAP)) (fun _ => 0)
        (sliceElements s) with
    | error e => rw [h1] at h; cases h
    | ok l1 =>
      rw [h1] at h
      cases h2 : layoutFrom (idx + 1) rest with
      | error e => rw [h2] at h; cases h
      | ok l2 =>
        rw [h2] at h
        cases h
        rw [pureLayout, layoutElems_ok idx (sliceElements s) (fun _ => 0) l1 h1,
          ih (idx + 1) l2 h2]

theorem layoutSlices_ok (ss : List Slice) (l : List (String × LayoutEntry))
    (h : layoutSlices ss = .ok l) : l = pureLayout 0 ss :=
  layoutFrom_ok ss 0 l h

theorem TYPE_X_le (t : String) : TYPE_X t ≤ 750 := by
  unfold TYPE_X
  split_ifs <;> omega

theorem rankBefore_le (els : List Element) (t : String) (p q : Nat)
    (h : p ≤ q) : rankBefore els p t ≤ rankBefore els q t := by
  unfold rankBefore
  have : els.take q = els.take p ++ (els.drop p).take (q - p) := by
    rw [← List.take_add]
    congr 1
    omega
  rw [this, List.filter_append, List.length_append]
  omega

theorem rankBefore_lt (els : List Element) (p q : Nat) (t : String)
    (hpq : p < q) (hp : p < els.length)
    (ht : layoutType (els.getD p default) = t) :
    rankBefore els p t < rankBefore els q t := by
  have hgd : els.getD p default = els[p] := by
    rw [List.getD_eq_getElem?_getD, List.getElem?_eq_getElem hp]
    rfl
  have hstep : rankBefore els p t < rankBefore els (p + 1) t := by
    unfold rankBefore
    have h1 : els.take (p + 1) = els.take p ++ [els[p]] := by
      rw [List.take_succ, List.getElem?_eq_getElem hp]
      rfl
    rw [h1, List.filter_append, List.length_append]
    have ht' : (layoutType els[p] == t) = true := by
      rw [← hgd, ht]
      simp
    simp [List.filter_cons, ht']
  exact Nat.lt_of_lt_of_le hstep (rankBefore_le els t (p + 1) q hpq)


/-- Extract the layout list of a successful layout computation. -/
def okOrL (r : Except String (List (String × LayoutEntry))) :
    List (String × LayoutEntry) :=
  match r with
  | .ok l => l
  | .error _ => []

/-- C1 (amended): the layout map computed by the fix pipeline is the closed
form `pureLayout`, whose coordinates are a pure function of (slice index,
layout type, same-type row rank); two same-type elements of one slice never
share a y, and elements of different slices never share an x. (Elements of
different layout types in the same slice CAN collide — see the
counterexample — so the original blanket "no two distinct elements ever share
coordinates" is false.) -/
theorem C1_layout_pure_function (ss : List Slice)
    (l : List (String × LayoutEntry)) (h : layoutSlices ss = .ok l) :
    l = pureLayout 0 ss ∧
    (∀ (i : Nat) (els : List Element) (p q : Nat),
      p < els.length → q < els.length → p < q →
      layoutType (els.getD p default) = layoutType (els.getD q default) →
      (entryAtC (fun _ => 0) i els p).2.y ≠
        (entryAtC (fun _ => 0) i els q).2.y) ∧
    (∀ (i j : Nat) (els els' : List Element) (p q : Nat), i ≠ j →
      (entryAtC (fun _ => 0) i els p).2.x ≠
        (entryAtC (fun _ => 0) j els' q).2.x) := by
  refine ⟨layoutSlices_ok ss l h, ?_, ?_⟩
  · intro i els p q hp hq hpq ht
    have hlt := rankBefore_lt els p q (layoutType (els.getD q default)) hpq hp ht
    unfold entryAtC layoutCoord BASE_Y ROW_HEIGHT
    dsimp only
    rw [ht]
    omega
  · intro i j els els' p q hij
    have h1 := TYPE_X_le (layoutType (els.getD p default))
    have h2 := TYPE_X_le (layoutType (els'.getD q default))
    unfold entryAtC layoutCoord SLICE_WIDTH SLICE_GAP
    dsimp only
    omega

/-- Input refuting the blanket coordinate-uniqueness half of C1: one slice
holding a domain event and an automation. -/
def d1 : Doc :=
  mkDoc [mkSlice "S1" [] [mkEl "E1" "Ev" "DOMAIN_EVENT" []] [] []
    [mkEl "A1" "Auto" "AUTOMATION" []] []]

/-- Counterexample for C1 as stated: after the fix pipeline, the EVENT `E1`
and the AUTOMATION `A1` — two distinct elements — both receive coordinates
(500, 100): `TYPE_X` maps AUTOMATION and EVENT to the same column and each
type has its own row counter starting at 0. -/
theorem C1_counterexample :
    (lookupLast (fixLayout (some d1)) "E1").map (fun e => (e.x, e.y)) =
        some (500, 100) ∧
      (lookupLast (fixLayout (some d1)) "A1").map (fun e => (e.x, e.y)) =
        some (500, 100) ∧
      "E1" ≠ "A1" :=
  ⟨rfl, rfl, by decide⟩

/-- Witness for C1 at a concrete graph. -/
theorem C1_witness :
    okOrL (layoutSlices (getSlices d1)) = pureLayout 0 (getSlices d1) :=
  (C1_layout_pure_function (getSlices d1)
    (okOrL (layoutSlices (getSlices d1))) rfl).1

/-- C7 (amended): same-type elements of a slice get strictly increasing y
values, stepping by exactly `ROW_HEIGHT` per row rank
(`y = BASE_Y + rank * ROW_HEIGHT`), and x values of elements in different
slices differ by at least 550 = `SLICE_WIDTH + SLICE_GAP - 750` (750 being the
largest `TYPE_X` column offset) — not by at least `SLICE_WIDTH` (1200) as
originally claimed; see the counterexample. -/
theorem C7_layout_spacing (ss : List Slice)
    (l : List (String × LayoutEntry)) (h : layoutSlices ss = .ok l) :
    l = pureLayout 0 ss ∧
    (∀ (i : Nat) (els : List Element) (p : Nat),
      (entryAtC (fun _ => 0) i els p).2.y =
        BASE_Y + rankBefore els p (layoutType (els.getD p default)) *
          ROW_HEIGHT) ∧
    (∀ (i : Nat) (els : List Element) (p q : Nat),
      p < els.length → q < els.length → p < q →
      layoutType (els.getD p default) = layoutType (els.getD q default) →
      (entryAtC (fun _ => 0) i els p).2.y <
          (entryAtC (fun _ => 0) i els q).2.y ∧
        (entryAtC (fun _ => 0) i els q).2.y =
          (entryAtC (fun _ => 0) i els p).2.y +
            (rankBefore els q (layoutType (els.getD q default)) -
              rankBefore els p (layoutType (els.getD q default))) *
              ROW_HEIGHT) ∧
    (∀ (i j : Nat) (els els' : List Element) (p q : Nat), i < j →
      (entryAtC (fun _ => 0) i els p).2.x + 550 ≤
        (entryAtC (fun _ => 0) j els' q).2.x) := by
  refine ⟨layoutSlices_ok ss l h, ?_, ?_, ?_⟩
  · intro i els p
    unfold entryAtC layoutCoord
    dsimp only
    rw [Nat.zero_add]
  · intro i els p q hp hq hpq ht
    have hlt := rankBefore_lt els p q (layoutType (els.getD q default)) hpq hp ht
    unfold entryAtC layoutCoord BASE_Y ROW_HEIGHT
    dsimp only
    rw [ht]
    constructor
    · omega
    · omega
  · intro i j els els' p q hij
    have h1 := TYPE_X_le (layoutType (els.getD p default))
    have h2 := TYPE_X_le (layoutType (els'.getD q default))
    unfold entryAtC layoutCoord SLICE_WIDTH SLICE_GAP
    dsimp only
    omega

/-- Input refuting the cross-slice x-distance half of C7: a read model in
slice 0 (column offset 750) and a screen in slice 1 (column offset 0). -/
def d7 : Doc :=
  mkDoc [mkSlice "SA" [] [] [mkEl "R0" "Rm" "READ_MODEL" []] [] [] [],
    mkSlice "SB" [] [] [] [mkEl "S9" "Scr" "SCREEN" []] [] []]

/-- Counterexample for C7 as stated: the two elements sit in different slices
yet their x values are 750 and 1300, which differ by 550 < `SLICE_WIDTH`. -/
theorem C7_counterexample :
    (lookupLast (fixLayout (some d7)) "R0").map (fun e => e.x) = some 750 ∧
      (lookupLast (fixLayout (some d7)) "S9").map (fun e => e.x) = some 1300 ∧
      1300 - 750 < SLICE_WIDTH :=
  ⟨rfl, rfl, by decide⟩

/-- Witness for C7 at a concrete graph. -/
theorem C7_witness :
    okOrL (layoutSlices (getSlices d7)) = pureLayout 0 (getSlices d7) :=
  (C7_layout_spacing (getSlices d7)
    (okOrL (layoutSlices (getSlices d7))) rfl).1


/-! ### C8: structural precondition handling -/

/-- C8 (amended): the fix pipeline reports a missing input file and an absent
or empty `eventModel.slices` as diagnostics and aborts before any mutation
(the `aborted` outcome carries no output document); the audit pipeline,
however, performs neither guard: a missing input file escapes as an uncaught
`FileNotFoundError` (a crash), and absent/empty slices produce an ordinary
clean-run report. -/
theorem C8_precondition_handling :
    fix_model none = .aborted ("Error: " ++ INPUT_FILE ++ " not found.") ∧
    (∀ doc : Doc, getSlices doc = [] →
      fix_model (some doc) = .aborted "No slices found in eventModel.") ∧
    audit_patterns none = .crashed "FileNotFoundError" ∧
    (∀ doc : Doc, getSlices doc = [] → audit_patterns (some doc) = .ok []) := by
  refine ⟨rfl, ?_, rfl, ?_⟩
  · intro doc h
    simp [fix_model, h]
  · intro doc h
    simp [audit_patterns, h, auditSlices]

/-- Counterexample for C8 as stated: on a missing input document the audit
pipeline does not report and abort — it crashes with an uncaught exception;
and on empty slices it reports a clean run instead of the precondition. -/
theorem C8_counterexample :
    audit_patterns none = .crashed "FileNotFoundError" ∧
      audit_patterns (some (mkDoc [])) = .ok [] :=
  ⟨rfl, rfl⟩

/-- Witness for C8 at a concrete empty document. -/
theorem C8_witness :
    fix_model (some (mkDoc [])) = .aborted "No slices found in eventModel." :=
  C8_precondition_handling.2.1 (mkDoc []) rfl


/-! ### C10: dangling dependency references -/

/-- Rewrite the referenced id of a dependency (used to show the validator
never consults dependency ids, i.e. never resolves them). -/
def mapDepId (f : String → String) (d : Dep) : Dep :=
  { d with id := f d.id }

/-- Rewrite every dependency id of an element. -/
def mapDepIdsEl (f : String → String) (el : Element) : Element :=
  { el with dependencies := el.dependencies.map (List.map (mapDepId f)) }

/-- Rewrite every dependency id in a slice. -/
def mapDepIdsSlice (f : String → String) (s : Slice) : Slice :=
  { s with
    commands := s.commands.map (mapDepIdsEl f),
    events := s.events.map (mapDepIdsEl f),
    readmodels := s.readmodels.map (mapDepIdsEl f),
    screens := s.screens.map (mapDepIdsEl f),
    processors := s.processors.map (mapDepIdsEl f),
    integrationEvents := s.integrationEvents.map (mapDepIdsEl f) }

/-- Rewrite every dependency id in the graph. -/
def mapDepIds (f : String → String) (ss : List Slice) : List Slice :=
  ss.map (mapDepIdsSlice f)

theorem filter_type_map_depId (f : String → String) (tv : String) :
    ∀ l : List Dep,
      (l.map (mapDepId f)).filter (fun d => d.type == some tv) =
        (l.filter (fun d => d.type == some tv)).map (mapDepId f) := by
  intro l
  induction l with
  | nil => rfl
  | cons d l ih =>
    simp only [List.map_cons, List.filter_cons,
      show (mapDepId f d).type = d.type from rfl]
    by_cases hd : (d.type == some tv) = true
    · rw [if_pos hd, if_pos hd, List.map_cons, ih]
    · rw [if_neg hd, if_neg hd, ih]

theorem inboundDeps_mapDepIdsEl (f : String → String) (el : Element) :
    inboundDeps (mapDepIdsEl f el) = (inboundDeps el).map (mapDepId f) := by
  unfold inboundDeps mapDepIdsEl
  cases el.dependencies with
  | none => rfl
  | some deps =>
    show (deps.map (mapDepId f)).filter (fun d => d.type == some "INBOUND") = _
    exact filter_type_map_depId f "INBOUND" deps

theorem auditElement_mapDepIds (f : String → String) (sliceId : String)
    (el : Element) :
    auditElement sliceId (mapDepIdsEl f el) = auditElement sliceId el := by
  simp only [auditElement, fmtViolation, inboundDeps_mapDepIdsEl, List.any_map,
    show (mapDepIdsEl f el).type = el.type from rfl,
    show (mapDepIdsEl f el).title = el.title from rfl,
    show (mapDepIdsEl f el).id = el.id from rfl,
    Function.comp,
    show ∀ p : Dep, (mapDepId f p).elementType = p.elementType from
      fun _ => rfl,
    show ∀ req : List String,
        ((fun p => req.any fun r => p.elementType == some r) ∘ mapDepId f) =
          (fun p : Dep => req.any fun r => p.elementType == some r) from
      fun req => funext fun p => rfl]

theorem auditElems_mapDepIds (f : String → String) (sliceId : String)
    (els : List Element) :
    auditElems sliceId (els.map (mapDepIdsEl f)) = auditElems sliceId els := by
  induction els with
  | nil => rfl
  | cons el rest ih =>
    rw [List.map_cons, auditElems, auditElems, auditElement_mapDepIds, ih]

theorem sliceElements_mapDepIds (f : String → String) (s : Slice) :
    sliceElements (mapDepIdsSlice f s) = (sliceElements s).map (mapDepIdsEl f) := by
  simp [sliceElements, mapDepIdsSlice]

/-- C10 (amended): edge synthesis skips an INBOUND dependency whose referenced
id is unknown, producing no insertion and no error; and the validator never
resolves dependency ids at all — its result is invariant under arbitrary
rewriting of every dependency id, so a dangling INBOUND edge participates in
the predecessor check purely through its stored `elementType` (it can even
SATISFY the requirement, contrary to the original claim that it counts as a
non-matching predecessor; see the counterexample). -/
theorem C10_dangling_references :
    (∀ (ss : List Slice) (k : String) (d : Dep),
      memberId (allElements ss) d.id = false → synthStep ss k d = .ok ss) ∧
    (∀ (f : String → String) (ss : List Slice),
      auditSlices (mapDepIds f ss) = auditSlices ss) := by
  constructor
  · intro ss k d h
    unfold synthStep
    rw [h]
    rfl
  · intro f ss
    induction ss with
    | nil => rfl
    | cons s rest ih =>
      show auditSlices (mapDepIdsSlice f s :: mapDepIds f rest) = _
      rw [auditSlices, auditSlices]
      have hsid : (mapDepIdsSlice f s).id = s.id := rfl
      rw [hsid, sliceElements_mapDepIds, auditElems_mapDepIds, ih]

/-- A command whose only INBOUND predecessor is dangling (id `GHOST` unknown)
but carries elementType SCREEN. -/
def d10 : Doc :=
  mkDoc [mkSlice "S1" [mkEl "C" "t" "COMMAND" [inbDep "GHOST" "SCREEN" none]]
    [] [] [] [] []]

/-- Counterexample for C10 as stated: `GHOST` is not a known element id, yet
the validator reports NO violation for the command — the dangling edge
satisfied the SCREEN-or-AUTOMATION requirement via its stored elementType
instead of being counted as a non-matching predecessor. -/
theorem C10_counterexample :
    memberId (allElements (getSlices d10)) "GHOST" = false ∧
      audit_patterns (some d10) = .ok [] :=
  ⟨rfl, rfl⟩

/-- Witness for C10: the synthesis step on the dangling edge of `d10` returns
the state unchanged with no error. -/
theorem C10_witness :
    synthStep (getSlices d10) "C" (inbDep "GHOST" "SCREEN" none) =
      .ok (getSlices d10) :=
  C10_dangling_references.1 (getSlices d10) "C" (inbDep "GHOST" "SCREEN" none) rfl


/-! ### C3: malformed elements (missing id or title) -/

theorem map_type_id (el : Element) : (map_type el).id = el.id := by
  unfold map_type
  split_ifs <;> rfl

theorem map_type_title (el : Element) : (map_type el).title = el.title := by
  unfold map_type
  split_ifs <;> rfl

theorem prepElement_ok_idtitle (el e : Element) (h : prepElement el = .ok e) :
    e.id = el.id ∧ e.title = el.title := by
  unfold prepElement at h
  cases hid : (map_type el).id with
  | none => rw [hid] at h; cases h
  | some i =>
    rw [hid] at h
    cases h
    exact ⟨map_type_id el, map_type_title el⟩

theorem prepElement_ok_id (el e : Element) (h : prepElement el = .ok e) :
    el.id ≠ none := by
  unfold prepElement at h
  cases hid : (map_type el).id with
  | none => rw [hid] at h; cases h
  | some i =>
    rw [map_type_id el] at hid
    rw [hid]
    intro hc
    cases hc

theorem prepList_ok_ids (els els' : List Element)
    (h : prepList els = .ok els') : ∀ el ∈ els, el.id ≠ none := by
  induction els generalizing els' with
  | nil => intro el hmem; cases hmem
  | cons x rest ih =>
    intro el hmem
    rw [prepList] at h
    cases hx : prepElement x with
    | error e => rw [hx] at h; cases h
    | ok e =>
      rw [hx] at h
      cases hr : prepList rest with
      | error er => rw [hr] at h; cases h
      | ok r =>
        rw [hr] at h
        rcases List.mem_cons.mp hmem with rfl | hmem
        · exact prepElement_ok_id el e hx
        · exact ih r hr el hmem

theorem prepList_idtitle (els els' : List Element)
    (h : prepList els = .ok els') :
    els'.map (fun e => (e.id, e.title)) = els.map (fun e => (e.id, e.title)) := by
  induction els generalizing els' with
  | nil => cases h; rfl
  | cons x rest ih =>
    rw [prepList] at h
    cases hx : prepElement x with
    | error e => rw [hx] at h; cases h
    | ok e =>
      rw [hx] at h
      cases hr : prepList rest with
      | error er => rw [hr] at h; cases h
      | ok r =>
        rw [hr] at h
        cases h
        rcases prepElement_ok_idtitle x e hx with ⟨h1, h2⟩
        rw [List.map_cons, List.map_cons, h1, h2, ih r hr]

theorem prepSlice_ok_struct (s : Slice) (s' : Slice)
    (h : prepSlice s = .ok s') :
    (∀ el ∈ sliceElements s, el.id ≠ none) ∧
      (sliceElements s').map (fun e => (e.id, e.title)) =
        (sliceElements s).map (fun e => (e.id, e.title)) := by
  unfold prepSlice at h
  cases hc : prepList s.commands with
  | error e => rw [hc] at h; cases h
  | ok c =>
    rw [hc] at h
    cases he : prepList s.events with
    | error e => rw [he] at h; cases h
    | ok ev =>
      rw [he] at h
      cases hr : prepList s.readmodels with
      | error e => rw [hr] at h; cases h
      | ok r =>
        rw [hr] at h
        cases hsc : prepList s.screens with
        | error e => rw [hsc] at h; cases h
        | ok sc =>
          rw [hsc] at h
          cases hp : prepList s.processors with
          | error e => rw [hp] at h; cases h
          | ok p =>
            rw [hp] at h
            cases hie : prepList s.integrationEvents with
            | error e => rw [hie] at h; cases h
            | ok ie =>
              rw [hie] at h
              cases h
              constructor
              · intro el hmem
                unfold sliceElements at hmem
                simp only [List.mem_append] at hmem
                rcases hmem with ((((h1 | h2) | h3) | h4) | h5) | h6
                · exact prepList_ok_ids _ _ hc el h1
                · exact prepList_ok_ids _ _ he el h2
                · exact prepList_ok_ids _ _ hr el h3
                · exact prepList_ok_ids _ _ hsc el h4
                · exact prepList_ok_ids _ _ hp el h5
                · exact prepList_ok_ids _ _ hie el h6
              · simp only [sliceElements, List.map_append]
                rw [prepList_idtitle _ _ hc, prepList_idtitle _ _ he,
                  prepList_idtitle _ _ hr, prepList_idtitle _ _ hsc,
                  prepList_idtitle _ _ hp, prepList_idtitle _ _ hie]

theorem prepSlices_ok_struct (ss ss' : List Slice)
    (h : prepSlices ss = .ok ss') :
    (∀ el ∈ allElements ss, el.id ≠ none) ∧
      (allElements ss').map (fun e => (e.id, e.title)) =
        (allElements ss).map (fun e => (e.id, e.title)) := by
  induction ss generalizing ss' with
  | nil => cases h; exact ⟨fun el hmem => (by cases hmem), rfl⟩
  | cons s rest ih =>
    rw [prepSlices] at h
    cases hs : prepSlice s with
    | error e => rw [hs] at h; cases h
    | ok s1 =>
      rw [hs] at h
      cases hr : prepSlices rest with
      | error e => rw [hr] at h; cases h
      | ok r1 =>
        rw [hr] at h
        cases h
        rcases prepSlice_ok_struct s s1 hs with ⟨hids, hmap⟩
        rcases ih r1 hr with ⟨hids2, hmap2⟩
        constructor
        · intro el hmem
          rw [allElements_cons, List.mem_append] at hmem
          rcases hmem with h1 | h2
          · exact hids el h1
          · exact hids2 el h2
        · rw [allElements_cons, allElements_cons, List.map_append,
            List.map_append, hmap, hmap2]

theorem layoutElems_ok_fields (b : Nat) :
    ∀ (els : List Element) (c : String → Nat) (l : List (String × LayoutEntry)),
      layoutElems b c els = .ok l →
      ∀ el ∈ els, el.title ≠ none ∧ el.id ≠ none := by
  intro els
  induction els with
  | nil => intro c l h el hmem; cases hmem
  | cons x rest ih =>
    intro c l h el hmem
    rw [layoutElems] at h
    cases ht : x.title with
    | none => rw [ht] at h; cases h
    | some ttl =>
      rw [ht] at h
      cases hid : x.id with
      | none => rw [hid] at h; cases h
      | some i =>
        rw [hid] at h
        cases hr : layoutElems b
            (fun u => if u = layoutType x then c (layoutType x) + 1 else c u)
            rest with
        | error e => rw [hr] at h; cases h
        | ok r =>
          rcases List.mem_cons.mp hmem with rfl | hmem
          · exact ⟨(by rw [ht]; intro hc; cases hc), (by rw [hid]; intro hc; cases hc)⟩
          · exact ih _ r hr el hmem

theorem layoutFrom_ok_fields :
    ∀ (ss : List Slice) (idx : Nat) (l : List (String × LayoutEntry)),
      layoutFrom idx ss = .ok l →
      ∀ el ∈ allElements ss, el.title ≠ none ∧ el.id ≠ none := by
  intro ss
  induction ss with
  | nil => intro idx l h el hmem; cases hmem
  | cons s rest ih =>
    intro idx l h el hmem
    rw [layoutFrom] at h
    cases h1 : layoutElems (idx * (SLICE_WIDTH + SLICE_GAP)) (fun _ => 0)
        (sliceElements s) with
    | error e => rw [h1] at h; cases h
    | ok l1 =>
      rw [h1] at h
      cases h2 : layoutFrom (idx + 1) rest with
      | error e => rw [h2] at h; cases h
      | ok l2 =>
        rw [allElements_cons, List.mem_append] at hmem
        rcases hmem with hm | hm
        · exact layoutElems_ok_fields _ _ _ _ h1 el hm
        · exact ih (idx + 1) l2 h2 el hm

theorem exists_title_none_of_map (a b : List Element)
    (hmap : a.map (fun e => (e.id, e.title)) = b.map (fun e => (e.id, e.title)))
    (h : ∃ el ∈ b, el.title = none) : ∃ el ∈ a, el.title = none := by
  rcases h with ⟨el, hmem, ht⟩
  have hq : ((el.id, el.title) : Option String × Option String) ∈
      a.map (fun e => (e.id, e.title)) := by
    rw [hmap]
    exact List.mem_map_of_mem _ hmem
  rcases List.mem_map.mp hq with ⟨el', hmem', heq⟩
  refine ⟨el', hmem', ?_⟩
  have : el'.title = el.title := ((Prod.mk.injEq _ _ _ _).mp heq).2
  rw [this, ht]

/-- C3 (amended): the fix pipeline halts with an uncaught `KeyError` whenever
any element lacks its `id` (raised while building the element map) or its
`title` (raised while generating the layout). The audit pipeline, by
contrast, does not guard these fields: an element missing its `id` never
halts it — `el.get('id')` silently renders as `None` in any diagnostic (see
the counterexample) — and a missing `title` only halts it when a violation
message for that very element is formatted. -/
theorem C3_missing_id_or_title_crashes_fix (doc : Doc)
    (h : ∃ el ∈ allElements (getSlices doc), el.id = none ∨ el.title = none) :
    RunResult.isCrashed (fix_model (some doc)) = true := by
  have hne : ¬((getSlices doc).isEmpty = true) := by
    rcases h with ⟨el, hmem, _⟩
    intro hc
    rw [List.isEmpty_iff] at hc
    rw [hc] at hmem
    cases hmem
  unfold fix_model
  dsimp only
  rw [if_neg hne]
  cases hprep : prepSlices (getSlices doc) with
  | error e => rfl
  | ok ss1 =>
    dsimp only
    rcases prepSlices_ok_struct (getSlices doc) ss1 hprep with ⟨hids, hmap1⟩
    have htitle : ∃ el ∈ allElements (getSlices doc), el.title = none := by
      rcases h with ⟨el, hmem, hcase⟩
      rcases hcase with hid | ht
      · exact absurd hid (hids el hmem)
      · exact ⟨el, hmem, ht⟩
    cases hsyn : synthesis ss1 with
    | error e => rfl
    | ok ss2 =>
      dsimp only
      cases hlay : layoutSlices (purge ss2) with
      | error e => rfl
      | ok l =>
        exfalso
        have hmap2 : (allElements ss2).map (fun e => (e.id, e.title)) =
            (allElements ss1).map (fun e => (e.id, e.title)) := by
          rw [synthesis_eq_runTasks] at hsyn
          exact runTasks_map_proj (fun e => e.title)
            (fun d0 el hd0 => rfl) (synthTasks ss1) ss1 ss2 hsyn
        have hmap3 : (allElements (purge ss2)).map (fun e => (e.id, e.title)) =
            (allElements ss2).map (fun e => (e.id, e.title)) := by
          unfold purge
          exact foldl_updLast_map_proj (fun e => e.title) purgeDeps
            (fun el => ⟨purgeDeps_id el, rfl⟩) (mapKeys ss2) ss2
        have hfinal : ∃ el ∈ allElements (purge ss2), el.title = none :=
          exists_title_none_of_map _ _
            (hmap3.trans (hmap2.trans hmap1)) htitle
        rcases hfinal with ⟨el, hmem, ht⟩
        exact (layoutFrom_ok_fields (purge ss2) 0 l hlay el hmem).1 ht

/-- An element missing its id. -/
def elNoId : Element :=
  { id := none, title := some "T", type := some "COMMAND", context := none,
    dependencies := none }

/-- Graph holding an element with no id. -/
def d3 : Doc := mkDoc [mkSlice "S1" [elNoId] [] [] [] [] []]

/-- The diagnostic the audit emits for `elNoId`, with the missing id silently
rendered as `None`. -/
def d3msg : String :=
  "[S1] COMMAND " ++ apos ++ "T" ++ apos ++
    " (None) missing SCREEN or AUTOMATION parent."

/-- Counterexample for C3 as stated: on an element missing its `id`, the audit
pipeline does NOT propagate an error — it completes normally and coerces the
missing id to `None` in its diagnostic — while the fix pipeline does crash. -/
theorem C3_counterexample :
    audit_patterns (some d3) = .ok [d3msg] ∧
      fix_model (some d3) = .crashed "KeyError: id" :=
  ⟨rfl, rfl⟩

/-- An element missing its title. -/
def elNoTitle : Element :=
  { id := some "X", title := none, type := some "SCREEN", context := none,
    dependencies := none }

/-- Graph holding an element with no title. -/
def w3d : Doc := mkDoc [mkSlice "S1" [] [] [] [elNoTitle] [] []]

/-- Witness for C3: a graph with a title-less element makes the fix pipeline
crash. -/
theorem C3_witness : RunResult.isCrashed (fix_model (some w3d)) = true :=
  C3_missing_id_or_title_crashes_fix w3d
    ⟨elNoTitle, by decide, Or.inr rfl⟩



/-! ### C4: validator soundness and completeness -/

/-- Modelled from the spec rule table: the predecessor elementTypes an
element type requires, with the message tail the code prints for it; `none`
for types without a rule. -/
def requiredPreds (t : String) : Option (List String × String) :=
  if t = "COMMAND" then
    some (["SCREEN", "AUTOMATION"], "SCREEN or AUTOMATION parent.")
  else if t = "DOMAIN_EVENT" then
    some (["COMMAND"], "COMMAND parent.")
  else if t = "READ_MODEL" then
    some (["DOMAIN_EVENT", "INTEGRATION_EVENT"], "EVENT parent.")
  else if t = "AUTOMATION" then
    some (["DOMAIN_EVENT", "INTEGRATION_EVENT", "READ_MODEL"],
      "EVENT or READ_MODEL parent.")
  else none

/-- Some INBOUND dependency carries an elementType from the required set. -/
def ruleSatisfied (el : Element) (req : List String) : Bool :=
  (inboundDeps el).any (fun p => req.any (fun r => p.elementType == some r))

/-- The diagnostic the spec predicts for one element: present exactly when
the element's type has a rule and no INBOUND elementType matches it. -/
def specViolation (sliceId : String) (el : Element) : Option String :=
  match el.type with
  | none => none
  | some t =>
    match requiredPreds t with
    | none => none
    | some (req, suffix) =>
      if ruleSatisfied el req then none
      else
        some ("[" ++ sliceId ++ "] " ++ t ++ " " ++ apos ++ el.title.getD "" ++
          apos ++ " (" ++ pyOptStr el.id ++ ") missing " ++ suffix)

/-- The full diagnostic list the spec predicts, in slice order and per-slice
bucket order. -/
def specViolations (ss : List Slice) : List String :=
  (ss.map (fun s => (sliceElements s).filterMap (specViolation s.id))).flatten

theorem auditElement_spec (sliceId : String) (el : Element) (ttl : String)
    (htitle : el.title = some ttl) :
    auditElement sliceId el = .ok (specViolation sliceId el).toList := by
  rcases hty : el.type with _ | t
  · simp only [auditElement, specViolation, hty, htitle]
    norm_num
    rfl
  · by_cases h1 : t = "COMMAND"
    · subst h1
      cases hb : ((inboundDeps el).any (fun p =>
          ["SCREEN", "AUTOMATION"].any (fun r => p.elementType == some r))) with
      | true =>
        unfold auditElement specViolation
        rw [hty]
        simp only [hb, Option.some.injEq]
        simp at hb
        norm_num [requiredPreds, ruleSatisfied, fmtViolation, htitle, hb,
    (by decide : ¬("COMMAND" = "DOMAIN_EVENT")),
    (by decide : ¬("COMMAND" = "READ_MODEL")),
    (by decide : ¬("COMMAND" = "AUTOMATION"))]
        rfl
      | false =>
        unfold auditElement specViolation
        rw [hty]
        simp only [hb, Option.some.injEq]
        simp at hb
        norm_num [requiredPreds, ruleSatisfied, fmtViolation, htitle,
    (by decide : ¬("COMMAND" = "DOMAIN_EVENT")),
    (by decide : ¬("COMMAND" = "READ_MODEL")),
    (by decide : ¬("COMMAND" = "AUTOMATION"))]
        rw [if_neg (by push_neg; exact hb)]
        rfl
    · by_cases h2 : t = "DOMAIN_EVENT"
      · subst h2
        cases hb : ((inboundDeps el).any (fun p =>
            ["COMMAND"].any (fun r => p.elementType == some r))) with
        | true =>
          unfold auditElement specViolation
          rw [hty]
          simp only [hb, Option.some.injEq]
          simp at hb
          norm_num [requiredPreds, ruleSatisfied, fmtViolation, htitle, hb,
    (by decide : ¬("DOMAIN_EVENT" = "COMMAND")),
    (by decide : ¬("DOMAIN_EVENT" = "READ_MODEL")),
    (by decide : ¬("DOMAIN_EVENT" = "AUTOMATION"))]
          rfl
        | false =>
          unfold auditElement specViolation
          rw [hty]
          simp only [hb, Option.some.injEq]
          simp at hb
          norm_num [requiredPreds, ruleSatisfied, fmtViolation, htitle,
    (by decide : ¬("DOMAIN_EVENT" = "COMMAND")),
    (by decide : ¬("DOMAIN_EVENT" = "READ_MODEL")),
    (by decide : ¬("DOMAIN_EVENT" = "AUTOMATION"))]
          rw [if_neg (by push_neg; exact hb)]
          rfl
      · by_cases h3 : t = "READ_MODEL"
        · subst h3
          cases hb : ((inboundDeps el).any (fun p =>
              ["DOMAIN_EVENT", "INTEGRATION_EVENT"].any (fun r => p.elementType == some r))) with
          | true =>
            unfold auditElement specViolation
            rw [hty]
            simp only [hb, Option.some.injEq]
            simp at hb
            norm_num [requiredPreds, ruleSatisfied, fmtViolation, htitle, hb,
    (by decide : ¬("READ_MODEL" = "COMMAND")),
    (by decide : ¬("READ_MODEL" = "DOMAIN_EVENT")),
    (by decide : ¬("READ_MODEL" = "AUTOMATION"))]
            rfl
          | false =>
            unfold auditElement specViolation
            rw [hty]
            simp only [hb, Option.some.injEq]
            simp at hb
            norm_num [requiredPreds, ruleSatisfied, fmtViolation, htitle,
    (by decide : ¬("READ_MODEL" = "COMMAND")),
    (by decide : ¬("READ_MODEL" = "DOMAIN_EVENT")),
    (by decide : ¬("READ_MODEL" = "AUTOMATION"))]
            rw [if_neg (by push_neg; exact hb)]
            rfl
        · by_cases h4 : t = "AUTOMATION"
          · subst h4
            cases hb : ((inboundDeps el).any (fun p =>
                ["DOMAIN_EVENT", "INTEGRATION_EVENT", "READ_MODEL"].any (fun r => p.elementType == some r))) with
            | true =>
              unfold auditElement specViolation
              rw [hty]
              simp only [hb, Option.some.injEq]
              simp at hb
              norm_num [requiredPreds, ruleSatisfied, fmtViolation, htitle, hb,
    (by decide : ¬("AUTOMATION" = "COMMAND")),
    (by decide : ¬("AUTOMATION" = "DOMAIN_EVENT")),
    (by decide : ¬("AUTOMATION" = "READ_MODEL"))]
              rfl
            | false =>
              unfold auditElement specViolation
              rw [hty]
              simp only [hb, Option.some.injEq]
              simp at hb
              norm_num [requiredPreds, ruleSatisfied, fmtViolation, htitle,
    (by decide : ¬("AUTOMATION" = "COMMAND")),
    (by decide : ¬("AUTOMATION" = "DOMAIN_EVENT")),
    (by decide : ¬("AUTOMATION" = "READ_MODEL"))]
              rw [if_neg (by push_neg; exact hb)]
              rfl
          · unfold auditElement specViolation
            rw [hty]
            norm_num [requiredPreds, h1, h2, h3, h4]
            rfl

theorem auditElems_spec (sliceId : String) (els : List Element)
    (h : ∀ el ∈ els, el.title ≠ none) :
    auditElems sliceId els = .ok (els.filterMap (specViolation sliceId)) := by
  induction els with
  | nil => rfl
  | cons el rest ih =>
    have htitle : el.title ≠ none := h el (List.mem_cons_self _ _)
    cases ht : el.title with
    | none => exact absurd ht htitle
    | some ttl =>
      rw [auditElems, auditElement_spec sliceId el ttl ht,
        ih (fun e hm => h e (List.mem_cons_of_mem _ hm))]
      show Except.ok ((specViolation sliceId el).toList ++
        rest.filterMap (specViolation sliceId)) = _
      rw [List.filterMap_cons]
      cases specViolation sliceId el with
      | none => rfl
      | some m => rfl

/-- C4: the validator is exact and pure. On any graph whose elements carry
titles (needed only to format messages), the audit returns precisely the
spec-predicted list: one diagnostic per element whose type has a rule
(COMMAND needs SCREEN or AUTOMATION; DOMAIN_EVENT needs COMMAND; READ_MODEL
needs DOMAIN_EVENT or INTEGRATION_EVENT; AUTOMATION needs DOMAIN_EVENT,
INTEGRATION_EVENT, or READ_MODEL) and no INBOUND elementType in the required
set — no false positives or negatives — collected in slice order and
per-slice bucket order. The audit is embedded as a pure function of the
input document, so it mutates nothing. -/
theorem C4_validator_exact (ss : List Slice)
    (h : ∀ el ∈ allElements ss, el.title ≠ none) :
    auditSlices ss = .ok (specViolations ss) := by
  induction ss with
  | nil => rfl
  | cons s rest ih =>
    have h1 : ∀ el ∈ sliceElements s, el.title ≠ none := by
      intro el hm
      exact h el (by rw [allElements_cons, List.mem_append]; exact Or.inl hm)
    have h2 : ∀ el ∈ allElements rest, el.title ≠ none := by
      intro el hm
      exact h el (by rw [allElements_cons, List.mem_append]; exact Or.inr hm)
    rw [auditSlices, auditElems_spec s.id (sliceElements s) h1, ih h2]
    rfl

/-- Witness for C4 at a concrete graph (the `d1` document: its DOMAIN_EVENT
and AUTOMATION both violate their rules, its other buckets are empty). -/
theorem C4_witness :
    auditSlices (getSlices d1) = .ok (specViolations (getSlices d1)) :=
  C4_validator_exact (getSlices d1) (by decide)


/-! ### C6: idempotence of normalization and synthesis -/

theorem map_type_idem (el : Element) : map_type (map_type el) = map_type el := by
  unfold map_type
  split_ifs <;> simp_all

theorem map_type_type_fixed (el : Element) :
    ¬(map_type el).type = some "DOMAIN_EVENT" ∧
      ¬(map_type el).type = some "INTEGRATION_EVENT" ∧
      ¬(map_type el).type = some "READ_MODEL" := by
  unfold map_type
  split_ifs <;> simp_all

theorem map_type_eq_self (el : Element)
    (h1 : ¬el.type = some "DOMAIN_EVENT")
    (h2 : ¬el.type = some "INTEGRATION_EVENT")
    (h3 : ¬el.type = some "READ_MODEL") : map_type el = el := by
  unfold map_type
  rw [if_neg h1, if_neg h2, if_neg h3]

theorem prepElement_idem (el e : Element) (h : prepElement el = .ok e) :
    prepElement e = .ok e := by
  unfold prepElement at h
  cases hid : (map_type el).id with
  | none => rw [hid] at h; cases h
  | some i =>
    rw [hid] at h
    cases h
    have h3 := map_type_type_fixed el
    have hm : map_type { map_type el with
        dependencies := some ((map_type el).dependencies.getD []) } =
        { map_type el with
          dependencies := some ((map_type el).dependencies.getD []) } :=
      map_type_eq_self _ h3.1 h3.2.1 h3.2.2
    unfold prepElement
    rw [hm, hid]
    rfl

theorem prepList_idem (els els' : List Element) (h : prepList els = .ok els') :
    prepList els' = .ok els' := by
  induction els generalizing els' with
  | nil => cases h; rfl
  | cons x rest ih =>
    rw [prepList] at h
    cases hx : prepElement x with
    | error e => rw [hx] at h; cases h
    | ok e =>
      rw [hx] at h
      cases hr : prepList rest with
      | error er => rw [hr] at h; cases h
      | ok r =>
        rw [hr] at h
        cases h
        rw [prepList, prepElement_idem x e hx, ih r hr]
        rfl

theorem prepSlice_idem (s s' : Slice) (h : prepSlice s = .ok s') :
    prepSlice s' = .ok s' := by
  unfold prepSlice at h
  cases hc : prepList s.commands with
  | error e => rw [hc] at h; cases h
  | ok c =>
    rw [hc] at h
    cases he : prepList s.events with
    | error e => rw [he] at h; cases h
    | ok ev =>
      rw [he] at h
      cases hr : prepList s.readmodels with
      | error e => rw [hr] at h; cases h
      | ok r =>
        rw [hr] at h
        cases hsc : prepList s.screens with
        | error e => rw [hsc] at h; cases h
        | ok sc =>
          rw [hsc] at h
          cases hp : prepList s.processors with
          | error e => rw [hp] at h; cases h
          | ok p =>
            rw [hp] at h
            cases hie : prepList s.integrationEvents with
            | error e => rw [hie] at h; cases h
            | ok ie =>
              rw [hie] at h
              cases h
              unfold prepSlice
              rw [prepList_idem _ _ hc, prepList_idem _ _ he,
                prepList_idem _ _ hr, prepList_idem _ _ hsc,
                prepList_idem _ _ hp, prepList_idem _ _ hie]
              rfl

theorem prepSlices_idem (ss ss' : List Slice) (h : prepSlices ss = .ok ss') :
    prepSlices ss' = .ok ss' := by
  induction ss generalizing ss' with
  | nil => cases h; rfl
  | cons s rest ih =>
    rw [prepSlices] at h
    cases hs : prepSlice s with
    | error e => rw [hs] at h; cases h
    | ok s1 =>
      rw [hs] at h
      cases hr : prepSlices rest with
      | error e => rw [hr] at h; cases h
      | ok r1 =>
        rw [hr] at h
        cases h
        rw [prepSlices, prepSlice_idem s s1 hs, ih r1 hr]
        rfl

theorem purgeDeps_idem (el : Element) :
    purgeDeps (purgeDeps el) = purgeDeps el := by
  unfold purgeDeps
  simp [List.filter_filter]

theorem synthTasksFor_purge (ss : List Slice) (k : String) :
    synthTasksFor (purge ss) k = [] := by
  unfold synthTasksFor
  rw [purge_lookup ss k]
  cases lookupEl k (allElements ss) with
  | none => rfl
  | some el =>
    simp [inboundDeps_purgeDeps]

theorem synthOuter_no_tasks (ss : List Slice)
    (h : ∀ k, synthTasksFor ss k = []) :
    ∀ keys : List String, synthOuter ss keys = .ok ss := by
  intro keys
  induction keys with
  | nil => rfl
  | cons k keys ih =>
    rw [synthOuter, h k]
    exact ih


theorem updLastEl_id (i : String) (f : Element → Element) :
    ∀ els : List Element,
      (∀ el, lookupEl i els = some el → f el = el) →
      updLastEl i f els = els := by
  intro els
  induction els with
  | nil => intro _; rfl
  | cons x rest ih =>
    intro hf
    by_cases hm : memberId rest i
    · rw [updLastEl, if_pos hm,
        ih (fun el hl => hf el (by rw [lookupEl, if_pos hm]; exact hl))]
    · by_cases hx : (x.id == some i) = true
      · have hfix : f x = x := hf x (by rw [lookupEl, if_neg hm, if_pos hx])
        rw [updLastEl, if_neg hm, if_pos hx, hfix]
      · rw [updLastEl, if_neg hm, if_neg hx]

theorem updLastSlice_id (i : String) (f : Element → Element) (s : Slice)
    (hf : ∀ el, lookupEl i (sliceElements s) = some el → f el = el) :
    updLastSlice i f s = s := by
  unfold updLastSlice
  by_cases h6 : memberId s.integrationEvents i
  · rw [if_pos h6, updLastEl_id i f s.integrationEvents (fun el hl => hf el (by
      simpa [sliceElements, lookupEl_append, memberId_append, h6] using hl))]
  · by_cases h5 : memberId s.processors i
    · rw [if_neg h6, if_pos h5, updLastEl_id i f s.processors (fun el hl =>
        hf el (by
          simpa [sliceElements, lookupEl_append, memberId_append, h5, h6]
            using hl))]
    · by_cases h4 : memberId s.screens i
      · rw [if_neg h6, if_neg h5, if_pos h4, updLastEl_id i f s.screens
          (fun el hl => hf el (by
            simpa [sliceElements, lookupEl_append, memberId_append, h4, h5, h6]
              using hl))]
      · by_cases h3 : memberId s.readmodels i
        · rw [if_neg h6, if_neg h5, if_neg h4, if_pos h3, updLastEl_id i f
            s.readmodels (fun el hl => hf el (by
              simpa [sliceElements, lookupEl_append, memberId_append,
                h3, h4, h5, h6] using hl))]
        · by_cases h2 : memberId s.events i
          · rw [if_neg h6, if_neg h5, if_neg h4, if_neg h3, if_pos h2,
              updLastEl_id i f s.events (fun el hl => hf el (by
                simpa [sliceElements, lookupEl_append, memberId_append,
                  h2, h3, h4, h5, h6] using hl))]
          · by_cases h1 : memberId s.commands i
            · rw [if_neg h6, if_neg h5, if_neg h4, if_neg h3, if_neg h2,
                updLastEl_id i f s.commands (fun el hl => hf el (by
                  simpa [sliceElements, lookupEl_append, memberId_append,
                    h1, h2, h3, h4, h5, h6] using hl))]
            · rw [if_neg h6, if_neg h5, if_neg h4, if_neg h3, if_neg h2,
                updLastEl_of_not_mem i f s.commands (by simpa using h1)]

theorem updLast_id (i : String) (f : Element → Element) :
    ∀ ss : List Slice,
      (∀ el, lookupEl i (allElements ss) = some el → f el = el) →
      updLast i f ss = ss := by
  intro ss
  induction ss with
  | nil => intro _; rfl
  | cons s rest ih =>
    intro hf
    by_cases hm : memberId (allElements rest) i
    · rw [updLast, if_pos hm, ih (fun el hl => hf el (by
        simpa [allElements_cons, lookupEl_append, hm] using hl))]
    · rw [updLast, if_neg hm, updLastSlice_id i f s (fun el hl => hf el (by
        simpa [allElements_cons, lookupEl_append, hm] using hl))]

theorem purge_purge (ss : List Slice) : purge (purge ss) = purge ss := by
  have hfix : ∀ k, updLast k purgeDeps (purge ss) = purge ss := by
    intro k
    apply updLast_id
    intro el hl
    rw [purge_lookup ss k] at hl
    cases hlo : lookupEl k (allElements ss) with
    | none => rw [hlo] at hl; cases hl
    | some el0 =>
      rw [hlo] at hl
      cases hl
      exact purgeDeps_idem el0
  have haux : ∀ K : List String,
      K.foldl (fun acc k => updLast k purgeDeps acc) (purge ss) = purge ss := by
    intro K
    induction K with
    | nil => rfl
    | cons k K ih => rw [List.foldl_cons, hfix k, ih]
  exact haux (mapKeys (purge ss))

/-- C6: type normalization is idempotent at element level
(`map_type ∘ map_type = map_type`) and pipeline level (re-running phase 1 on
an already-normalized graph reproduces it exactly), and synthesis is
idempotent: running the synthesis phase on an already synthesized-and-purged
graph is a no-op (`.ok` with the very same state — no new edges appear), and
a second INBOUND purge changes nothing. -/
theorem C6_idempotence :
    (∀ el : Element, map_type (map_type el) = map_type el) ∧
    (∀ ss ss' : List Slice, prepSlices ss = .ok ss' →
      prepSlices ss' = .ok ss') ∧
    (∀ ss1 ss2 : List Slice, synthesis ss1 = .ok ss2 →
      synthesis (purge ss2) = .ok (purge ss2) ∧
        purge (purge ss2) = purge ss2) := by
  refine ⟨map_type_idem, prepSlices_idem, ?_⟩
  intro ss1 ss2 _
  exact ⟨synthOuter_no_tasks (purge ss2) (synthTasksFor_purge ss2)
    (mapKeys (purge ss2)), purge_purge ss2⟩

/-- Witness for C6 at a concrete graph: re-running synthesis and the purge on
the processed `w2ss` graph changes nothing. -/
theorem C6_witness :
    synthesis (purge w2out) = .ok (purge w2out) ∧
      purge (purge w2out) = purge w2out :=
  (C6_idempotence.2.2 w2ss w2out rfl)


/-! ### C5 and C9: evolution of dependency lists under synthesis -/

/-- The OUTBOUND dependencies of `el` targeting id `t`. -/
def outEdgesTo (el : Element) (t : String) : List Dep :=
  (el.dependencies.getD []).filter
    (fun dp => dp.type == some "OUTBOUND" && dp.id == t)

theorem appendDep_deps (d : Dep) (el : Element) :
    (appendDep d el).dependencies.getD [] = el.dependencies.getD [] ++ [d] := rfl

theorem mem_outboundIds (el : Element) (t : String) :
    t ∈ outboundIds el ↔ outEdgesTo el t ≠ [] := by
  unfold outboundIds outEdgesTo
  induction el.dependencies.getD [] with
  | nil => simp
  | cons dp l ih =>
    rw [List.filterMap_cons, List.filter_cons]
    by_cases hty : (dp.type == some "OUTBOUND") = true
    · rw [if_pos hty]
      by_cases hid : (dp.id == t) = true
      · have : dp.id = t := by simpa using hid
        simp [this, hty, hid]
      · have : ¬dp.id = t := by simpa using hid
        simp only [hty, Bool.true_and, hid, Bool.false_eq_true, if_false]
        rw [List.mem_cons, ih]
        constructor
        · rintro (h | h)
          · exact absurd h.symm this
          · exact h
        · intro h
          exact Or.inr h
    · have hty' : (dp.type == some "OUTBOUND") = false := by simpa using hty
      rw [hty']
      simp only [Bool.false_and, Bool.false_eq_true, if_false]
      exact ih

theorem outEdgesTo_appendDep (d : Dep) (el : Element) (t : String)
    (hd : d.type = some "OUTBOUND") :
    outEdgesTo (appendDep d el) t =
      outEdgesTo el t ++ (if d.id = t then [d] else []) := by
  unfold outEdgesTo
  rw [appendDep_deps, List.filter_append]
  congr 1
  by_cases hid : d.id = t
  · simp [hid, hd]
  · simp [hid, hd]

theorem outEdgesTo_purgeDeps (el : Element) (t : String) :
    outEdgesTo (purgeDeps el) t = outEdgesTo el t := by
  unfold outEdgesTo purgeDeps
  simp only [Option.getD_some]
  induction el.dependencies.getD [] with
  | nil => rfl
  | cons dp l ih =>
    by_cases hty : (dp.type == some "OUTBOUND") = true
    · rw [List.filter_cons, if_pos hty, List.filter_cons, List.filter_cons]
      by_cases hid : (dp.type == some "OUTBOUND" && dp.id == t) = true
      · rw [if_pos hid, if_pos hid, ih]
      · rw [if_neg hid, if_neg hid, ih]
    · have hty' : (dp.type == some "OUTBOUND") = false := by simpa using hty
      rw [List.filter_cons, hty', List.filter_cons]
      simp only [Bool.false_eq_true, if_false]
      rw [hty']
      simp only [Bool.false_and, Bool.false_eq_true, if_false]
      exact ih

/-- A synthesis step leaves every id's map entry unchanged, except that for a
successful insertion the source `d.id` gains one OUTBOUND dependency. -/
theorem synthStep_deps (ss : List Slice) (k : String) (d : Dep)
    (ss' : List Slice) (h : synthStep ss k d = .ok ss') (a : String) :
    lookupEl a (allElements ss') = lookupEl a (allElements ss) ∨
    (∃ src ty, a = d.id ∧ lookupEl a (allElements ss) = some src ∧
      (lookupEl k (allElements ss)).bind (fun el => el.type) = some ty ∧
      (outboundIds src).contains k = false ∧
      lookupEl a (allElements ss') = some (appendDep (newDep k d ty) src)) := by
  rcases synthStep_ok_cases ss k d ss' h with ⟨_, rfl⟩ | ⟨src, _, _, rfl⟩ |
    ⟨src, ty, hsrc, hc, hty, rfl⟩
  · exact Or.inl rfl
  · exact Or.inl rfl
  · by_cases ha : a = d.id
    · subst ha
      refine Or.inr ⟨src, ty, rfl, hsrc, hty, hc, ?_⟩
      rw [lookupEl_updLast_all d.id d.id _ (fun el => appendDep_id _ el) ss,
        if_pos rfl, hsrc]
      rfl
    · left
      rw [lookupEl_updLast_all d.id a _ (fun el => appendDep_id _ el) ss,
        if_neg ha]

/-- Looking up an id and projecting its element type is invariant under a
projection-map equality. -/
theorem lookup_type_eq (a b : List Element)
    (h : a.map (fun el => (el.id, el.type)) = b.map (fun el => (el.id, el.type)))
    (j : String) :
    (lookupEl j a).bind (fun el => el.type) =
      (lookupEl j b).bind (fun el => el.type) := by
  have hl := lookupEl_map_proj (fun el => el.type) j a b h
  cases h1 : lookupEl j a with
  | none =>
    cases h2 : lookupEl j b with
    | none => rfl
    | some el2 => rw [h1, h2] at hl; simp at hl
  | some el1 =>
    cases h2 : lookupEl j b with
    | none => rw [h1, h2] at hl; simp at hl
    | some el2 =>
      rw [h1, h2] at hl
      simpa using hl

theorem synthStep_typemap (ss : List Slice) (k : String) (d : Dep)
    (ss' : List Slice) (h : synthStep ss k d = .ok ss') :
    (allElements ss').map (fun el => (el.id, el.type)) =
      (allElements ss).map (fun el => (el.id, el.type)) :=
  synthStep_map_proj (fun el => el.type) (fun _ _ _ => rfl) ss k d ss' h

/-- Across a run of synthesis tasks, every id's dependency list only grows,
by OUTBOUND dependencies whose elementType is the recorded type of their
target id and whose title comes from the INBOUND dependency of some task. -/
theorem runTasks_deps :
    ∀ (tasks : List (String × Dep)) (st st' : List Slice),
      runTasks st tasks = .ok st' →
      ∀ (a : String) (elA' : Element),
        lookupEl a (allElements st') = some elA' →
        ∃ elA added, lookupEl a (allElements st) = some elA ∧
          elA'.dependencies.getD [] = elA.dependencies.getD [] ++ added ∧
          ∀ dp ∈ added, dp.type = some "OUTBOUND" ∧
            dp.elementType =
              (lookupEl dp.id (allElements st)).bind (fun el => el.type) ∧
            ∃ d0, (dp.id, d0) ∈ tasks ∧ d0.id = a ∧
              dp.title = some (d0.title.getD "") := by
  intro tasks
  induction tasks with
  | nil =>
    intro st st' h a elA' hl
    cases h
    exact ⟨elA', [], hl, by simp, fun dp hdp => by cases hdp⟩
  | cons p rest ih =>
    intro st st' h a elA' hl
    rcases p with ⟨k, d⟩
    cases hstep : synthStep st k d with
    | error e => rw [runTasks, hstep] at h; cases h
    | ok st1 =>
      rw [runTasks, hstep] at h
      have htype1 : ∀ j, (lookupEl j (allElements st1)).bind (fun el => el.type) =
          (lookupEl j (allElements st)).bind (fun el => el.type) :=
        fun j => lookup_type_eq _ _ (synthStep_typemap st k d st1 hstep) j
      rcases ih st1 st' h a elA' hl with ⟨elM, addedR, hlM, hdeps, haddR⟩
      rcases synthStep_deps st k d st1 hstep a with heq | ⟨src, ty, ha, hsrc, hty, hc, hl1⟩
      · rw [heq] at hlM
        refine ⟨elM, addedR, hlM, hdeps, fun dp hdp => ?_⟩
        rcases haddR dp hdp with ⟨h1, h2, d0, h3, h4, h5⟩
        exact ⟨h1, h2.trans (htype1 dp.id), d0, List.mem_cons_of_mem _ h3, h4, h5⟩
      · subst ha
        rw [hl1] at hlM
        cases hlM
        refine ⟨src, newDep k d ty :: addedR, hsrc, ?_, ?_⟩
        · rw [hdeps, appendDep_deps]
          simp
        · intro dp hdp
          rcases List.mem_cons.mp hdp with rfl | hdp
          · exact ⟨rfl, hty.symm, d, List.mem_cons_self _ _, rfl, rfl⟩
          · rcases haddR dp hdp with ⟨h1, h2, d0, h3, h4, h5⟩
            exact ⟨h1, h2.trans (htype1 dp.id), d0, List.mem_cons_of_mem _ h3,
              h4, h5⟩


theorem synthStep_outEdges (ss : List Slice) (k : String) (d : Dep)
    (ss' : List Slice) (h : synthStep ss k d = .ok ss') (s tid : String)
    (elS elS' : Element)
    (hS : lookupEl s (allElements ss) = some elS)
    (hS' : lookupEl s (allElements ss') = some elS') :
    outEdgesTo elS' tid = outEdgesTo elS tid ∨
      (outEdgesTo elS tid = [] ∧ ∃ dp, outEdgesTo elS' tid = [dp]) := by
  rcases synthStep_deps ss k d ss' h s with heq | ⟨src, ty, ha, hsrc, hty, hc, hl1⟩
  · rw [heq, hS] at hS'
    cases hS'
    exact Or.inl rfl
  · rw [hsrc] at hS
    cases hS
    rw [hl1] at hS'
    cases hS'
    rw [outEdgesTo_appendDep _ _ _ rfl]
    by_cases hk : (newDep k d ty).id = tid
    · have hknil : outEdgesTo elS tid = [] := by
        by_contra hne
        have hmem : tid ∈ outboundIds elS := (mem_outboundIds elS tid).mpr hne
        have : ¬tid ∈ outboundIds elS := by
          have hk2 : k = tid := hk
          rw [← hk2]
          simp at hc
          exact hc
        exact this hmem
      rw [if_pos hk, hknil]
      exact Or.inr ⟨rfl, ⟨newDep k d ty, rfl⟩⟩
    · rw [if_neg hk]
      simp

theorem once_trans (A B C : List Dep)
    (h1 : B = A ∨ (A = [] ∧ ∃ dp, B = [dp]))
    (h2 : C = B ∨ (B = [] ∧ ∃ dp, C = [dp])) :
    C = A ∨ (A = [] ∧ ∃ dp, C = [dp]) := by
  rcases h1 with rfl | ⟨hA, dp1, hB⟩
  · exact h2
  · rcases h2 with rfl | ⟨hB2, dp2, hC⟩
    · exact Or.inr ⟨hA, dp1, hB⟩
    · rw [hB] at hB2
      cases hB2

theorem runTasks_outEdges_once :
    ∀ (tasks : List (String × Dep)) (st st' : List Slice),
      runTasks st tasks = .ok st' →
      ∀ (s tid : String) (elS elS' : Element),
        lookupEl s (allElements st) = some elS →
        lookupEl s (allElements st') = some elS' →
        (outEdgesTo elS' tid = outEdgesTo elS tid ∨
          (outEdgesTo elS tid = [] ∧ ∃ dp, outEdgesTo elS' tid = [dp])) := by
  intro tasks
  induction tasks with
  | nil =>
    intro st st' h s tid elS elS' hS hS'
    cases h
    rw [hS] at hS'
    cases hS'
    exact Or.inl rfl
  | cons p rest ih =>
    intro st st' h s tid elS elS' hS hS'
    rcases p with ⟨k, d⟩
    cases hstep : synthStep st k d with
    | error e => rw [runTasks, hstep] at h; cases h
    | ok st1 =>
      rw [runTasks, hstep] at h
      rcases synthStep_deps st k d st1 hstep s with heq | ⟨src, ty, ha, hsrc, hty, hc, hl1⟩
      · have hS1 : lookupEl s (allElements st1) = some elS := by rw [heq]; exact hS
        exact ih st1 st' h s tid elS elS' hS1 hS'
      · rw [hsrc] at hS
        cases hS
        exact once_trans _ _ _
          (synthStep_outEdges st k d st1 hstep s tid elS
            (appendDep (newDep k d ty) elS) hsrc hl1)
          (ih st1 st' h s tid (appendDep (newDep k d ty) elS) elS' hl1 hS')

/-- Globally unique element ids (the data model invariant). -/
def NodupIds (els : List Element) : Prop :=
  (els.filterMap (fun el => el.id)).Nodup

theorem filterMap_id_eq_of_idmap :
    ∀ (a b : List Element),
      a.map (fun el => el.id) = b.map (fun el => el.id) →
      a.filterMap (fun el => el.id) = b.filterMap (fun el => el.id) := by
  intro a
  induction a with
  | nil =>
    intro b h
    cases b with
    | nil => rfl
    | cons y ys => simp at h
  | cons x xs ih =>
    intro b h
    cases b with
    | nil => simp at h
    | cons y ys =>
      simp only [List.map_cons, List.cons.injEq] at h
      rw [List.filterMap_cons, List.filterMap_cons, h.1, ih ys h.2]

theorem nodupIds_tail (x : Element) (rest : List Element)
    (h : NodupIds (x :: rest)) : NodupIds rest := by
  unfold NodupIds at h ⊢
  rw [List.filterMap_cons] at h
  cases hx : x.id with
  | none => rw [hx] at h; exact h
  | some j => rw [hx] at h; exact (List.nodup_cons.mp h).2

theorem lookup_of_mem_nodup :
    ∀ (els : List Element), NodupIds els →
      ∀ el ∈ els, ∀ i : String, el.id = some i → lookupEl i els = some el := by
  intro els
  induction els with
  | nil => intro _ el hmem; cases hmem
  | cons x rest ih =>
    intro hnd el hmem i hid
    have hmemrest : memberId rest i = true → i ∈ rest.filterMap (fun e => e.id) := by
      intro hm
      simp only [memberId, List.any_eq_true] at hm
      rcases hm with ⟨e, he, hei⟩
      exact List.mem_filterMap.mpr ⟨e, he, by simpa using hei⟩
    rcases List.mem_cons.mp hmem with rfl | hmem
    · have hnm : memberId rest i = false := by
        rcases Bool.eq_false_or_eq_true (memberId rest i) with hm | hm
        · exfalso
          unfold NodupIds at hnd
          rw [List.filterMap_cons, hid] at hnd
          exact (List.nodup_cons.mp hnd).1 (hmemrest hm)
        · exact hm
      rw [lookupEl, hnm]
      simp [hid]
    · have hm : memberId rest i = true :=
        memberId_of_mem rest el i hmem hid
      rw [lookupEl, if_pos hm]
      exact ih (nodupIds_tail x rest hnd) el hmem i hid

theorem purge_idmap (ss : List Slice) :
    (allElements (purge ss)).map (fun el => el.id) =
      (allElements ss).map (fun el => el.id) := by
  apply idmap_of_projmap (fun _ => ())
  unfold purge
  exact foldl_updLast_map_proj (fun _ => ()) purgeDeps
    (fun el => ⟨purgeDeps_id el, rfl⟩) (mapKeys ss) ss


theorem purgeDeps_deps (el : Element) :
    (purgeDeps el).dependencies.getD [] =
      (el.dependencies.getD []).filter (fun dp => dp.type == some "OUTBOUND") := rfl

/-- C9 (amended): after synthesis and the INBOUND purge, on a graph with
globally-unique, present element ids (the data model invariant), every
element's dependency list contains only OUTBOUND entries; and every OUTBOUND
edge on an element either was already present on that element before
synthesis (keeping whatever elementType the input gave it — the pipeline
never rewrites it, see the counterexample) or was added by synthesis, in
which case its elementType is exactly the type recorded for its target id at
the time of synthesis. -/
theorem C9_direction_purity (ss1 ss2 : List Slice)
    (hsyn : synthesis ss1 = .ok ss2)
    (hnd : NodupIds (allElements ss1))
    (hids : ∀ el ∈ allElements ss1, el.id ≠ none) :
    (∀ el ∈ allElements (purge ss2), ∀ dp ∈ el.dependencies.getD [],
      dp.type = some "OUTBOUND") ∧
    (∀ (a : String) (elA' : Element),
      lookupEl a (allElements (purge ss2)) = some elA' →
      ∃ elA, lookupEl a (allElements ss1) = some elA ∧
        ∀ dp ∈ elA'.dependencies.getD [],
          dp ∈ elA.dependencies.getD [] ∨
            dp.elementType =
              (lookupEl dp.id (allElements ss1)).bind (fun el => el.type)) := by
  rw [synthesis_eq_runTasks] at hsyn
  have hid2 : (allElements ss2).map (fun el => el.id) =
      (allElements ss1).map (fun el => el.id) :=
    idmap_runTasks (synthTasks ss1) ss1 ss2 hsyn
  have hid3 : (allElements (purge ss2)).map (fun el => el.id) =
      (allElements ss1).map (fun el => el.id) :=
    (purge_idmap ss2).trans hid2
  constructor
  · intro el hmem dp hdp
    have hibm : el.id ∈ (allElements (purge ss2)).map (fun el => el.id) :=
      List.mem_map_of_mem _ hmem
    rw [hid3] at hibm
    rcases List.mem_map.mp hibm with ⟨e1, hmem1, heq1⟩
    cases hida : el.id with
    | none => rw [hida] at heq1; exact absurd heq1 (hids e1 hmem1)
    | some a =>
      have hnd3 : NodupIds (allElements (purge ss2)) := by
        unfold NodupIds
        rw [filterMap_id_eq_of_idmap _ _ hid3]
        exact hnd
      have hlook := lookup_of_mem_nodup (allElements (purge ss2)) hnd3 el hmem a hida
      rw [purge_lookup ss2 a] at hlook
      cases hlo : lookupEl a (allElements ss2) with
      | none => rw [hlo] at hlook; cases hlook
      | some el0 =>
        rw [hlo] at hlook
        cases hlook
        exact purgeDeps_outbound el0 dp hdp
  · intro a elA' hlook
    rw [purge_lookup ss2 a] at hlook
    cases hlo : lookupEl a (allElements ss2) with
    | none => rw [hlo] at hlook; cases hlook
    | some elB =>
      rw [hlo] at hlook
      cases hlook
      rcases runTasks_deps (synthTasks ss1) ss1 ss2 hsyn a elB hlo with
        ⟨elA, added, hlA, hdeps, hadded⟩
      refine ⟨elA, hlA, ?_⟩
      intro dp hdp
      rw [purgeDeps_deps, hdeps, List.filter_append] at hdp
      rw [List.mem_append] at hdp
      rcases hdp with hdp | hdp
      · exact Or.inl (List.mem_filter.mp hdp).1
      · have hdp2 : dp ∈ added := (List.mem_filter.mp hdp).1
        rcases hadded dp hdp2 with ⟨_, h2, _⟩
        exact Or.inr h2

/-- The stale pre-existing OUTBOUND edge of the C9 counterexample. -/
def depA9 : Dep :=
  { id := "B", type := some "OUTBOUND", title := some "",
    elementType := some "DOMAIN_EVENT" }

/-- Graph for the C9 counterexample: `A` has a pre-existing OUTBOUND edge to
`B` stamped with B's pre-normalization type `DOMAIN_EVENT`. -/
def d9 : Doc :=
  mkDoc [mkSlice "S1" []
    [mkEl "B" "tB" "DOMAIN_EVENT" []] []
    [{ id := some "A", title := some "tA", type := some "SCREEN",
       context := none, dependencies := some [depA9] }] [] []]

/-- Counterexample for C9 as stated: after the fix pipeline, A's OUTBOUND edge
to B still says elementType `DOMAIN_EVENT`, while B's type at (and after)
synthesis is the normalized `EVENT` — the edge's elementType is NOT B's type
at the time of synthesis. -/
theorem C9_counterexample :
    (lookupEl "A" (allElements (fixSlices (some d9)))).map
        (fun el => (el.dependencies.getD []).map (fun dp => dp.elementType)) =
      some [some "DOMAIN_EVENT"] ∧
      (lookupEl "B" (allElements (fixSlices (some d9)))).bind
          (fun el => el.type) = some "EVENT" :=
  ⟨rfl, rfl⟩

/-- The dependency synthesis adds to `F` in the `w2ss` witness graph. -/
def w9dep : Dep :=
  { id := "E", type := some "OUTBOUND", title := some "t",
    elementType := some "COMMAND" }

/-- The post-pipeline element `F` of the `w2ss` witness graph. -/
def w9F : Element :=
  { id := some "F", title := some "tF", type := some "SCREEN", context := none,
    dependencies := some [w9dep] }

/-- Witness for C9 at a concrete graph: the synthesized edge on `F` is
OUTBOUND. -/
theorem C9_witness : w9dep.type = some "OUTBOUND" :=
  (C9_direction_purity w2ss w2out rfl (by unfold NodupIds; decide)
    (by decide)).1 w9F
    (by decide) w9dep (by decide)


theorem synthTasks_mem (ss : List Slice) (k : String) (el : Element) (d : Dep)
    (hl : lookupEl k (allElements ss) = some el) (hd : d ∈ inboundDeps el) :
    (k, d) ∈ synthTasks ss := by
  unfold synthTasks
  rw [List.mem_flatten]
  refine ⟨synthTasksFor ss k, ?_, ?_⟩
  · exact List.mem_map_of_mem _
      ((mem_mapKeys ss k).mpr (member_of_lookup k _ el hl))
  · unfold synthTasksFor
    rw [hl]
    exact List.mem_map_of_mem _ hd

theorem mem_synthTasks (ss : List Slice) (k : String) (d : Dep)
    (h : (k, d) ∈ synthTasks ss) :
    ∃ el, lookupEl k (allElements ss) = some el ∧ d ∈ inboundDeps el := by
  unfold synthTasks at h
  rw [List.mem_flatten] at h
  rcases h with ⟨l, hl, hmem⟩
  rcases List.mem_map.mp hl with ⟨k', _, rfl⟩
  unfold synthTasksFor at hmem
  cases hlk : lookupEl k' (allElements ss) with
  | none => rw [hlk] at hmem; cases hmem
  | some el =>
    rw [hlk] at hmem
    rcases List.mem_map.mp hmem with ⟨d', hd', heq⟩
    have hk : k' = k := congrArg Prod.fst heq
    have hd2 : d' = d := congrArg Prod.snd heq
    subst hk
    subst hd2
    exact ⟨el, hlk, hd'⟩

/-- C5 (amended): for elements `E`, `F` and an INBOUND edge on `E` referencing
`F`, when `F` had NO OUTBOUND edge targeting `E` before synthesis (pre-existing
edges are left untouched — including duplicates and stale attributes, see the
counterexample), the completed pipeline leaves `F` with EXACTLY ONE OUTBOUND
edge targeting `E`, whose elementType is `E`'s post-normalization type and
whose title is copied from one of `E`'s INBOUND edges referencing `F` (its
title if present, else empty). Stated on graphs whose element ids are
globally unique, per the data model. -/
theorem C5_symmetry (ss1 ss2 : List Slice) (eId fId : String) (E : Element)
    (dp0 : Dep)
    (hsyn : synthesis ss1 = .ok ss2)
    (hnd : NodupIds (allElements ss1))
    (hE : lookupEl eId (allElements ss1) = some E)
    (hdp : dp0 ∈ inboundDeps E) (hdpid : dp0.id = fId)
    (hnone : ∀ elF, lookupEl fId (allElements ss1) = some elF →
      outEdgesTo elF eId = [])
    (hknown : memberId (allElements ss1) fId = true) :
    ∃ elF', lookupEl fId (allElements (purge ss2)) = some elF' ∧
      ∃ d0, d0 ∈ inboundDeps E ∧ d0.id = fId ∧
        outEdgesTo elF' eId =
          [{ id := eId, type := some "OUTBOUND",
             title := some (d0.title.getD ""), elementType := E.type }] := by
  rw [synthesis_eq_runTasks] at hsyn
  have hidmap : (allElements ss2).map (fun el => el.id) =
      (allElements ss1).map (fun el => el.id) :=
    idmap_runTasks (synthTasks ss1) ss1 ss2 hsyn
  rcases lookupEl_isSome_of_member fId (allElements ss1) hknown with ⟨elF0, hlo⟩
  have hF0nil := hnone elF0 hlo
  have hknown2 : memberId (allElements ss2) fId = true := by
    rw [memberId_eq_of_idmap _ _ hidmap]
    exact hknown
  rcases lookupEl_isSome_of_member fId (allElements ss2) hknown2 with ⟨elB, hlB⟩
  have hlook' : lookupEl fId (allElements (purge ss2)) = some (purgeDeps elB) := by
    rw [purge_lookup ss2 fId, hlB]
    rfl
  refine ⟨purgeDeps elB, hlook', ?_⟩
  have honce := runTasks_outEdges_once (synthTasks ss1) ss1 ss2 hsyn fId eId
    elF0 elB hlo hlB
  have hedge : HasEdge ss2 fId eId := by
    rw [runTasks_hasEdge (synthTasks ss1) ss1 ss2 hsyn fId eId]
    exact Or.inr ⟨(eId, dp0), synthTasks_mem ss1 eId E dp0 hE hdp, hdpid, rfl,
      hknown⟩
  have hnd2 : NodupIds (allElements ss2) := by
    unfold NodupIds
    rw [filterMap_id_eq_of_idmap _ _ hidmap]
    exact hnd
  have hne : outEdgesTo elB eId ≠ [] := by
    rcases hedge with ⟨el, hmem, hid, hmemout⟩
    have := lookup_of_mem_nodup (allElements ss2) hnd2 el hmem fId hid
    rw [hlB] at this
    cases this
    exact (mem_outboundIds elB eId).mp hmemout
  rcases honce with heq | ⟨_, dp, hout⟩
  · rw [heq] at hne
    exact absurd hF0nil hne
  · rcases runTasks_deps (synthTasks ss1) ss1 ss2 hsyn fId elB hlB with
      ⟨elA, added, hlA, hdeps, hadded⟩
    rw [hlo] at hlA
    cases hlA
    have hdpmem : dp ∈ outEdgesTo elB eId := by
      rw [hout]
      exact List.mem_cons_self _ _
    unfold outEdgesTo at hdpmem
    rcases List.mem_filter.mp hdpmem with ⟨hdpdeps, hdppred⟩
    have hconj : dp.type = some "OUTBOUND" ∧ dp.id = eId := by
      simpa using hdppred
    have hdpty : dp.type = some "OUTBOUND" := hconj.1
    have hdpid2 : dp.id = eId := hconj.2
    rw [hdeps, List.mem_append] at hdpdeps
    rcases hdpdeps with hin | hin
    · exfalso
      have : dp ∈ outEdgesTo elF0 eId := by
        unfold outEdgesTo
        exact List.mem_filter.mpr ⟨hin, hdppred⟩
      rw [hF0nil] at this
      cases this
    · rcases hadded dp hin with ⟨_, hety, d0, htask, hd0id, httl⟩
      rcases mem_synthTasks ss1 dp.id d0 htask with ⟨elE2, hlE2, hd0mem⟩
      rw [hdpid2] at hlE2
      rw [hE] at hlE2
      cases hlE2
      refine ⟨d0, hd0mem, hd0id, ?_⟩
      rw [outEdgesTo_purgeDeps, hout]
      have hdpstr : dp =
          { id := eId, type := some "OUTBOUND",
            title := some (d0.title.getD ""), elementType := E.type } := by
        have hety2 : dp.elementType = E.type := by
          rw [hety, hdpid2, hE]
          rfl
        obtain ⟨a1, a2, a3, a4⟩ := dp
        simp_all
      rw [hdpstr]

/-- Witness for C5 at the concrete `w2ss` graph: after the pipeline, `F`
carries exactly the one synthesized OUTBOUND edge to `E`. -/
theorem C5_witness :
    (lookupEl "F" (allElements (purge w2out))).map
        (fun el => outEdgesTo el "E") = some [w9dep] := by
  rcases C5_symmetry w2ss w2out "E" "F"
      (mkEl "E" "tE" "COMMAND" [inbDep "F" "SCREEN" (some "t")])
      (inbDep "F" "SCREEN" (some "t")) rfl (by unfold NodupIds; decide)
      rfl (by decide) rfl
      (fun elF h => by
        rw [show lookupEl "F" (allElements w2ss) =
          some (mkEl "F" "tF" "SCREEN" []) from rfl] at h
        cases h
        decide)
      rfl with ⟨elF', hl, d0, hd0, hdid, hout⟩
  have hd0eq : d0 = inbDep "F" "SCREEN" (some "t") := by
    simpa [mkEl, inbDep, inboundDeps] using hd0
  subst hd0eq
  rw [hl]
  show some (outEdgesTo elF' "E") = some [w9dep]
  rw [hout]
  rfl


/-- Pre-existing (duplicate, stale) OUTBOUND edges for the C5 counterexample. -/
def dep5a : Dep :=
  { id := "E", type := some "OUTBOUND", title := some "x",
    elementType := some "BOGUS" }

/-- A second duplicate pre-existing edge. -/
def dep5b : Dep :=
  { id := "E", type := some "OUTBOUND", title := none,
    elementType := some "BOGUS2" }

/-- Graph for the C5 counterexample: `E` holds an INBOUND edge referencing
`F`, but `F` already carries two OUTBOUND edges targeting `E` with bogus
elementTypes. -/
def d5 : Doc :=
  mkDoc [mkSlice "S1"
    [mkEl "E" "tE" "COMMAND" [inbDep "F" "SCREEN" (some "t")]] [] []
    [{ id := some "F", title := some "tF", type := some "SCREEN",
       context := none, dependencies := some [dep5a, dep5b] }] [] []]

/-- Counterexample for C5 as stated: after synthesis, `F` has TWO OUTBOUND
edges targeting `E` (not exactly one), and neither carries `E`'s
post-normalization type `COMMAND` or the INBOUND title — the membership check
suppresses the insertion and pre-existing edges are left untouched. -/
theorem C5_counterexample :
    (lookupEl "F" (allElements (fixSlices (some d5)))).map
        (fun el => outEdgesTo el "E") = some [dep5a, dep5b] ∧
      dep5a.elementType ≠ some "COMMAND" ∧ dep5b.elementType ≠ some "COMMAND" :=
  ⟨rfl, by decide, by decide⟩

end Weavr
